import Mathlib

/-!
Verification of the MinUI audio resampling and playback-buffering subsystem.

The definitions below are a shallow embedding of
`workspace/all/common/audio_resampler.c` and the sound portion of
`workspace/all/common/api.c`:

* machine integers are modelled as `Nat`/`Int` with explicit `% 2 ^ 32`
  (resp. `% 2 ^ 64`) where the C code can wrap;
* the single inner `while (frac_pos < FRAC_ONE)` loop, which does not
  terminate when the adjusted step is zero, is modelled with explicit fuel
  returning `Option` (fuel exhaustion models divergence); every theorem
  either supplies a positive step or is stated on the `some` case;
* `float`/`double` arithmetic (`ratio_adjust` products, the rate
  controller, `estimateOutput`) is modelled exactly over `ℚ` followed by
  the C truncation; the concrete values appearing in the theorems are far
  from rounding boundaries, where the two semantics agree.
-/

/-- Fixed-point format of `audio_resampler.h`: 16.16. -/
def FRAC_BITS : ℕ := 16

/-- The constant `FRAC_ONE = 1 << FRAC_BITS`. -/
def FRAC_ONE : ℕ := 1 <<< FRAC_BITS

/-- One stereo frame: two signed 16-bit samples, carried as unbounded
integers with the int16 range imposed where the code relies on it. -/
structure SND_Frame where
  left : ℤ
  right : ℤ
deriving DecidableEq

/-- Truncating cast to `int16_t` (wraps modulo `2 ^ 16`). -/
def toInt16 (x : ℤ) : ℤ := (x + 32768) % 65536 - 32768

/-- Intermediate product `(b - a) * frac` of `lerp_s16`; the C code computes
it in (supposedly non-overflowing) `int32_t` arithmetic. -/
def lerpProd (a b : ℤ) (frac : ℕ) : ℤ := (b - a) * (frac : ℤ)

/-- `lerp_s16` from audio_resampler.c: `(int16_t)(a + ((diff * frac) >> FRAC_BITS))`
with an arithmetic right shift (floor division by `2 ^ 16`). -/
def lerp_s16 (a b : ℤ) (frac : ℕ) : ℤ :=
  toInt16 (a + Int.fdiv (lerpProd a b frac) (2 ^ FRAC_BITS))

/-- Per-channel interpolation of a whole frame. -/
def lerpFrame (prev curr : SND_Frame) (frac : ℕ) : SND_Frame :=
  ⟨lerp_s16 prev.left curr.left frac, lerp_s16 prev.right curr.right frac⟩

/-- The sample is inside the signed 16-bit range. -/
def SampleOK (x : ℤ) : Prop := -32768 ≤ x ∧ x ≤ 32767

/-- Both channels inside the signed 16-bit range. -/
def FrameOK (f : SND_Frame) : Prop := SampleOK f.left ∧ SampleOK f.right

instance : DecidablePred SampleOK := fun x => by unfold SampleOK; infer_instance

instance : DecidablePred FrameOK := fun f => by unfold FrameOK; infer_instance

/-- `AudioRingBuffer` from audio_resampler.h; the backing array is a list of
length `capacity`. -/
structure AudioRingBuffer where
  frames : List SND_Frame
  capacity : ℕ
  write_pos : ℕ
  read_pos : ℕ
deriving DecidableEq

/-- The `next_pos` computation of the full check in `AudioResampler_resample`:
`next_pos = write_pos + 1; if (next_pos >= capacity) next_pos = 0`. -/
def ringNext (rb : AudioRingBuffer) : ℕ :=
  if rb.write_pos + 1 ≥ rb.capacity then 0 else rb.write_pos + 1

/-- Writing one frame at `write_pos` and advancing it with wraparound
(lines 121-124 of audio_resampler.c). -/
def ringWrite (rb : AudioRingBuffer) (f : SND_Frame) : AudioRingBuffer :=
  { rb with
    frames := rb.frames.set rb.write_pos f
    write_pos := if rb.write_pos + 1 ≥ rb.capacity then 0 else rb.write_pos + 1 }

/-- The full check `next_pos == read_pos`, performed only when a buffer is
present (a NULL buffer is a dry run). -/
def bufferFullCheck : Option AudioRingBuffer → Bool
  | none => false
  | some rb => ringNext rb == rb.read_pos

/-- Writing through an optional buffer (no-op for the NULL dry run). -/
def bufWrite : Option AudioRingBuffer → SND_Frame → Option AudioRingBuffer
  | none, _ => none
  | some rb, f => some (ringWrite rb f)

/-- `AudioResampler` state from audio_resampler.h. -/
structure AudioResampler where
  sample_rate_in : ℤ
  sample_rate_out : ℤ
  frac_pos : ℕ
  frac_step : ℕ
  prev_frame : SND_Frame
  has_prev : Bool
deriving DecidableEq

/-- `AudioResampler_init`: `frac_step = ((uint64_t)rate_in << 16) / rate_out`
(with the division-by-zero guard), truncated into the `uint32_t` field. -/
def AudioResampler_init (rate_in rate_out : ℤ) : AudioResampler :=
  { sample_rate_in := rate_in
    sample_rate_out := rate_out
    frac_step :=
      if rate_out ≤ 0 then FRAC_ONE
      else ((rate_in.emod (2 ^ 64)).toNat <<< FRAC_BITS % 2 ^ 64) / rate_out.toNat % 2 ^ 32
    frac_pos := 0
    prev_frame := ⟨0, 0⟩
    has_prev := false }

/-- `AudioResampler_reset`. -/
def AudioResampler_reset (r : AudioResampler) : AudioResampler :=
  { r with frac_pos := 0, prev_frame := ⟨0, 0⟩, has_prev := false }

/-- `AudioResampler_isNeeded`. -/
def AudioResampler_isNeeded (rate_in rate_out : ℤ) : Bool := rate_in ≠ rate_out

/-- The adjusted step of `AudioResampler_resample` (lines 69-80):
`(uint32_t)(frac_step * ratio_adjust)` then the sequential clamp to
`[frac_step >> 1, frac_step << 1]`.  The float product is modelled as the
exact rational product truncated toward zero. -/
def adjustedStep (fs : ℕ) (ratio_adjust : ℚ) : ℕ :=
  let a0 : ℕ := (Int.toNat ⌊(fs : ℚ) * ratio_adjust⌋) % 2 ^ 32
  let min_step : ℕ := fs >>> 1
  let max_step : ℕ := fs <<< 1 % 2 ^ 32
  let a1 : ℕ := if a0 < min_step then min_step else a0
  if a1 > max_step then max_step else a1

/-- Exit status of the inner `while (frac_pos < FRAC_ONE)` loop:
`done` means the loop condition failed, `full` means the `goto done`
of the buffer-full early exit fired.  `outs` is the list of frames the
run of the loop computed (and, when a buffer is present, wrote), in order. -/
inductive SpinExit where
  | done (frac_pos : ℕ) (buf : Option AudioRingBuffer) (outs : List SND_Frame)
  | full (frac_pos : ℕ) (buf : Option AudioRingBuffer) (outs : List SND_Frame)
deriving DecidableEq

/-- One run of the inner loop (lines 100-130 of audio_resampler.c), with
fuel: `none` models non-termination (only reachable when `step = 0`).
`frac_pos += step` is the wrapping `uint32_t` addition. -/
def spin (step : ℕ) (prev curr : SND_Frame) :
    ℕ → ℕ → Option AudioRingBuffer → Option SpinExit
  | 0, _, _ => none
  | fuel + 1, p, buf =>
    if p < FRAC_ONE then
      if bufferFullCheck buf then some (SpinExit.full p buf [])
      else
        match spin step prev curr fuel ((p + step) % 2 ^ 32)
            (bufWrite buf (lerpFrame prev curr p)) with
        | none => none
        | some (SpinExit.done q b os) => some (SpinExit.done q b (lerpFrame prev curr p :: os))
        | some (SpinExit.full q b os) => some (SpinExit.full q b (lerpFrame prev curr p :: os))
    else some (SpinExit.done p buf [])

/-- State threaded through the outer `while (input_idx < frame_count)` loop,
including the `ResampleResult` accumulators and the ghost list `outs` of all
frames emitted so far. -/
structure LoopState where
  frac_pos : ℕ
  prev : SND_Frame
  has_prev : Bool
  buf : Option AudioRingBuffer
  written : ℕ
  consumed : ℕ
  outs : List SND_Frame
deriving DecidableEq

/-- The outer loop of `AudioResampler_resample` (lines 88-137): bootstrap of
the first-ever frame, an inner-loop run per input frame, `frac_pos -= FRAC_ONE`
on normal exit of the inner loop, early return on `full`. -/
def resampleLoop (step : ℕ) : List SND_Frame → LoopState → Option LoopState
  | [], s => some s
  | curr :: rest, s =>
    if s.has_prev = false then
      resampleLoop step rest
        { s with prev := curr, has_prev := true, consumed := s.consumed + 1 }
    else
      match spin step s.prev curr (FRAC_ONE + 1) s.frac_pos s.buf with
      | none => none
      | some (SpinExit.full p b os) =>
        some { s with frac_pos := p, buf := b,
                      written := s.written + os.length, outs := s.outs ++ os }
      | some (SpinExit.done p b os) =>
        resampleLoop step rest
          { s with frac_pos := p - FRAC_ONE, prev := curr, buf := b,
                   written := s.written + os.length,
                   consumed := s.consumed + 1, outs := s.outs ++ os }

/-- `ResampleResult` from audio_resampler.h. -/
structure ResampleResult where
  frames_written : ℕ
  frames_consumed : ℕ
deriving DecidableEq

/-- Everything `AudioResampler_resample` produces: the returned counters, the
updated resampler state, the updated buffer, and the ghost output stream. -/
structure ResampleOut where
  result : ResampleResult
  resampler : AudioResampler
  buffer : Option AudioRingBuffer
  outs : List SND_Frame
deriving DecidableEq

/-- Body of `AudioResampler_resample` once the adjusted step has been
computed (the only place the float `ratio_adjust` enters the C function is
the `adjusted_step` computation, so the rest of the function is a pure
function of the integer step). -/
def resampleCore (r : AudioResampler) (buf : Option AudioRingBuffer)
    (frames : List SND_Frame) (step : ℕ) : Option ResampleOut :=
  if frames.length = 0 then
    some ⟨⟨0, 0⟩, r, buf, []⟩
  else
    match resampleLoop step frames ⟨r.frac_pos, r.prev_frame, r.has_prev, buf, 0, 0, []⟩ with
    | none => none
    | some s =>
      some ⟨⟨s.written, s.consumed⟩,
            { r with frac_pos := s.frac_pos, prev_frame := s.prev, has_prev := s.has_prev },
            s.buf, s.outs⟩

/-- `AudioResampler_resample` (lines 60-146 of audio_resampler.c). -/
def AudioResampler_resample (r : AudioResampler) (buf : Option AudioRingBuffer)
    (frames : List SND_Frame) (ratio_adjust : ℚ) : Option ResampleOut :=
  resampleCore r buf frames (adjustedStep r.frac_step ratio_adjust)

/-- Truncation toward zero of a rational, the semantics of C's `(int)` cast
from a floating-point value. -/
def ratTrunc (q : ℚ) : ℤ := if q < 0 then ⌈q⌉ else ⌊q⌋

/-- `AudioResampler_estimateOutput` (lines 158-166): the guard returns
`input_frames` unchanged; otherwise
`(int)(input_frames * (rate_out / rate_in) / ratio_adjust + 0.5)`, the
`double` arithmetic modelled exactly over `ℚ`. -/
def AudioResampler_estimateOutput (r : AudioResampler) (input_frames : ℤ)
    (ratio_adjust : ℚ) : ℤ :=
  if r.sample_rate_in ≤ 0 ∨ ratio_adjust ≤ 0 then input_frames
  else
    ratTrunc ((input_frames : ℚ) * ((r.sample_rate_out : ℚ) / (r.sample_rate_in : ℚ))
      / ratio_adjust + 1 / 2)

/-- `SND_calculateRateAdjust` from api.c as a function of the buffer fill
level, float constants modelled as the rationals they denote. -/
def SND_calculateRateAdjust (fill : ℚ) : ℚ :=
  let deadband_low : ℚ := 3 / 10
  let deadband_high : ℚ := 7 / 10
  let max_adjust : ℚ := 2 / 100
  if fill < deadband_low then 1 - (deadband_low - fill) / deadband_low * max_adjust
  else if fill > deadband_high then 1 + (fill - deadband_high) / (1 - deadband_high) * max_adjust
  else 1

/-- Feeding a list of chunks to `AudioResampler_resample` in successive calls
(dry-run buffer), threading the resampler state, and accumulating total
`frames_written`, total `frames_consumed` and the concatenated output
stream. -/
def resampleChunks (ratio_adjust : ℚ) :
    AudioResampler → List (List SND_Frame) → Option (ℕ × ℕ × List SND_Frame × AudioResampler)
  | r, [] => some (0, 0, [], r)
  | r, c :: cs =>
    match AudioResampler_resample r none c ratio_adjust with
    | none => none
    | some o =>
      match resampleChunks ratio_adjust o.resampler cs with
      | none => none
      | some (w, n, os, rf) =>
        some (o.result.frames_written + w, o.result.frames_consumed + n, o.outs ++ os, rf)

/-- A sequence of `AudioResampler_resample` calls with per-call buffers,
frame batches and speed adjustments, returning the final resampler state. -/
def resampleCallSeq :
    AudioResampler → List (Option AudioRingBuffer × List SND_Frame × ℚ) → Option AudioResampler
  | r, [] => some r
  | r, (buf, frames, ra) :: calls =>
    match AudioResampler_resample r buf frames ra with
    | none => none
    | some o => resampleCallSeq o.resampler calls

/-! ### The playback engine (sound portion of api.c) -/

/-- The fields of api.c's global `snd` context that the ring-buffer path
touches. -/
structure SndContext where
  buffer : List SND_Frame
  frame_count : ℕ
  frame_in : ℕ
  frame_out : ℕ
  frame_filled : ℤ
deriving DecidableEq

/-- The drain loop of `SND_audioCallback` (lines 1599-1610 of api.c):
`while (frame_out != frame_in && len > 0)` emit `buffer[frame_out]`, record
`frame_filled = frame_out`, advance `frame_out` with wraparound. -/
def drainLoop : ℕ → SndContext → List SND_Frame × SndContext
  | 0, s => ([], s)
  | len + 1, s =>
    if s.frame_out ≠ s.frame_in then
      let f := s.buffer.getD s.frame_out ⟨0, 0⟩
      let s' : SndContext :=
        { s with
          frame_filled := (s.frame_out : ℤ)
          frame_out := if s.frame_out + 1 ≥ s.frame_count then 0 else s.frame_out + 1 }
      let rest := drainLoop len s'
      (f :: rest.1, rest.2)
    else ([], s)

/-- `SND_audioCallback` (lines 1585-1626 of api.c), `len` counted in frames:
drain buffered frames, then pad the remainder with `buffer[frame_filled]`
when that index is valid, else with silence.  The `frame_count == 0` early
return emits nothing. -/
def SND_audioCallback (s : SndContext) (len : ℕ) : List SND_Frame × SndContext :=
  if s.frame_count = 0 then ([], s)
  else
    let d := drainLoop len s
    let pad : SND_Frame :=
      if 0 ≤ d.2.frame_filled ∧ d.2.frame_filled < (s.frame_count : ℤ) then
        d.2.buffer.getD d.2.frame_filled.toNat ⟨0, 0⟩
      else ⟨0, 0⟩
    (d.1 ++ List.replicate (len - d.1.length) pad, d.2)

/-- The post-state of a successful `SND_resizeBuffer` (lines 1652-1661 of
api.c): zero-filled backing store, cursors reset, `frame_filled`
initialized to `frame_count - 1`. -/
def SND_resizeBuffer (frame_count : ℕ) : SndContext :=
  { buffer := List.replicate frame_count ⟨0, 0⟩
    frame_count := frame_count
    frame_in := 0
    frame_out := 0
    frame_filled := (frame_count : ℤ) - 1 }

/-- The ring mutation performed by `SND_batchSamples` (lines 1777-1790 of
api.c): wrap the shared buffer in an `AudioRingBuffer` with
`write_pos = frame_in`, `read_pos = frame_out`, resample into it, commit
the new write position.  The lock and the bounded spin-wait are elided:
they only determine when space becomes available, not what is written. -/
def SND_batchSamples (s : SndContext) (r : AudioResampler) (frames : List SND_Frame)
    (ratio_adjust : ℚ) : Option (SndContext × AudioResampler × ℕ) :=
  if s.frame_count = 0 then some (s, r, 0)
  else
    match AudioResampler_resample r (some ⟨s.buffer, s.frame_count, s.frame_in, s.frame_out⟩)
        frames ratio_adjust with
    | none => none
    | some o =>
      match o.buffer with
      | none => none
      | some ring =>
        some ({ s with buffer := ring.frames, frame_in := ring.write_pos },
              o.resampler, o.result.frames_consumed)

/-- Number of unread frames held by the ring, with the wraparound case
split of `SND_getBufferFillLevel` (lines 1675-1679 of api.c). -/
def unreadCount (s : SndContext) : ℕ :=
  if s.frame_in ≥ s.frame_out then s.frame_in - s.frame_out
  else s.frame_count - s.frame_out + s.frame_in

/-- The unread frames in read order, starting at the read cursor. -/
def unreadList (s : SndContext) : List SND_Frame :=
  (List.range (unreadCount s)).map fun i =>
    s.buffer.getD ((s.frame_out + i) % s.frame_count) ⟨0, 0⟩

/-- The ghost "last frame ever read" after one callback of `len` frames:
the last frame the drain loop emitted, if any, else the previous value. -/
def lastReadAfter (s : SndContext) (len : ℕ) (last : Option SND_Frame) : Option SND_Frame :=
  match (drainLoop len s).1.getLast? with
  | some f => some f
  | none => last

/-- Relation between a ring buffer before and after a resample call made by
the producer: capacity and read cursor unchanged, backing length unchanged,
write cursor in range, and the slot just before the read cursor — the one
the consumer's `frame_filled` aliases — never written (the one-slot gap of
the full check protects it). -/
def RingPres (rb rb' : AudioRingBuffer) : Prop :=
  rb'.capacity = rb.capacity ∧ rb'.read_pos = rb.read_pos ∧
  rb'.frames.length = rb.frames.length ∧ rb'.write_pos < rb.capacity ∧
  rb'.frames.getD ((rb.read_pos + rb.capacity - 1) % rb.capacity) ⟨0, 0⟩ =
    rb.frames.getD ((rb.read_pos + rb.capacity - 1) % rb.capacity) ⟨0, 0⟩

/-- Structural invariant of the sound context: non-degenerate buffer, both
cursors in range, and `frame_filled` aliasing the slot just before the read
cursor. -/
def SndInv (s : SndContext) : Prop :=
  0 < s.frame_count ∧ s.buffer.length = s.frame_count ∧
  s.frame_in < s.frame_count ∧ s.frame_out < s.frame_count ∧
  s.frame_filled = (((s.frame_out + s.frame_count - 1) % s.frame_count : ℕ) : ℤ)

/-- The slot `frame_filled` aliases holds the last frame ever read in this
session (silence when none has been read — the producer cannot write that
slot, and `SND_resizeBuffer` zero-fills it). -/
def SndGhost (s : SndContext) (last : Option SND_Frame) : Prop :=
  s.buffer.getD ((s.frame_out + s.frame_count - 1) % s.frame_count) ⟨0, 0⟩ =
    last.getD ⟨0, 0⟩

/-- Session states reachable from a fresh `SND_resizeBuffer`, under
producer steps (`SND_batchSamples`, with an arbitrary — hence at least as
general as the rate controller's — speed adjustment) and consumer steps
(`SND_audioCallback`), together with the ghost "last frame ever read in
this session". -/
inductive SndReach : SndContext → AudioResampler → Option SND_Frame → Prop where
  | init (n : ℕ) (rate_in rate_out : ℤ) (hn : 0 < n) :
      SndReach (SND_resizeBuffer n) (AudioResampler_init rate_in rate_out) none
  | produce (s : SndContext) (r : AudioResampler) (last : Option SND_Frame)
      (frames : List SND_Frame) (ra : ℚ) (s' : SndContext) (r' : AudioResampler) (c : ℕ)
      (hr : SndReach s r last)
      (hb : SND_batchSamples s r frames ra = some (s', r', c)) :
      SndReach s' r' last
  | pull (s : SndContext) (r : AudioResampler) (last : Option SND_Frame) (len : ℕ)
      (hr : SndReach s r last) :
      SndReach (SND_audioCallback s len).2 r (lastReadAfter s len last)

/-- Convenient side conditions on the adjusted step: positive (the C loop
diverges at step 0) and small enough that `frac_pos += step` cannot wrap
while `frac_pos < FRAC_ONE` (true for every realistic rate pair). -/
def StepOK (step : ℕ) : Prop := 1 ≤ step ∧ step ≤ 2 ^ 32 - FRAC_ONE

instance : DecidablePred StepOK := fun s => by unfold StepOK; infer_instance

/-- Shifting the `ResampleResult` accumulators and the ghost output list of
a loop state (used to normalize loop runs to zeroed accumulators). -/
def shiftLS (w c : ℕ) (o : List SND_Frame) (t : LoopState) : LoopState :=
  { t with written := w + t.written, consumed := c + t.consumed, outs := o ++ t.outs }

/-! ## Basic lemmas -/

theorem FRAC_ONE_eq : FRAC_ONE = 65536 := rfl

/-- The sequential clamp of `adjustedStep` written as `min`/`max`. -/
theorem adjustedStep_eq_min_max (fs : ℕ) (ra : ℚ) :
    adjustedStep fs ra =
      min (max (Int.toNat ⌊(fs : ℚ) * ra⌋ % 2 ^ 32) (fs / 2)) (fs * 2 % 2 ^ 32) := by
  unfold adjustedStep
  rw [Nat.shiftRight_eq_div_pow, Nat.shiftLeft_eq]
  simp only [pow_one]
  split_ifs <;> omega

/-- At `ratio_adjust = 1` the adjusted step is the base step itself. -/
theorem adjustedStep_one (fs : ℕ) (h : fs < 2 ^ 31) : adjustedStep fs 1 = fs := by
  rw [adjustedStep_eq_min_max, mul_one, Int.floor_natCast, Int.toNat_natCast]
  have h1 : fs % 2 ^ 32 = fs := Nat.mod_eq_of_lt (by omega)
  have h2 : fs * 2 % 2 ^ 32 = fs * 2 := Nat.mod_eq_of_lt (by omega)
  rw [h1, h2]
  omega

theorem init_48000_44100_frac_step : (AudioResampler_init 48000 44100).frac_step = 71331 := by
  decide

theorem init_44100_48000_frac_step : (AudioResampler_init 44100 48000).frac_step = 60211 := by
  decide

theorem adjustedStep_60211_up : adjustedStep 60211 (5003 / 5000) = 60247 := by
  rw [adjustedStep_eq_min_max]
  have h : ⌊((60211 : ℕ) : ℚ) * (5003 / 5000)⌋ = 60247 := by
    push_cast
    rw [Int.floor_eq_iff]
    constructor <;> norm_num
  rw [h]
  decide

/-! ## Easy claims: the rate controller, the interpolation overflow, `estimateOutput` -/

/-- C5: the rate-control mapping: multiplier `1` on the deadband
`[0.30, 0.70]`; below `0.30` the affine map `49/50 + fill/15` (linear, value
exactly `0.98` at `0`); above `0.70` the affine map `143/150 + fill/15`
(linear, value exactly `1.02` at `1`); and the three scenario-C values. -/
theorem C5_rate_adjust_mapping (fill : ℚ) (h0 : 0 ≤ fill) (h1 : fill ≤ 1) :
    (3 / 10 ≤ fill → fill ≤ 7 / 10 → SND_calculateRateAdjust fill = 1) ∧
    (fill ≤ 3 / 10 → SND_calculateRateAdjust fill = 49 / 50 + fill * (1 / 15)) ∧
    (7 / 10 ≤ fill → SND_calculateRateAdjust fill = 143 / 150 + fill * (1 / 15)) ∧
    SND_calculateRateAdjust 0 = 98 / 100 ∧
    SND_calculateRateAdjust (1 / 2) = 1 ∧
    SND_calculateRateAdjust 1 = 102 / 100 := by
  unfold SND_calculateRateAdjust
  refine ⟨?_, ?_, ?_, by norm_num, by norm_num, by norm_num⟩
  · intro hl hh
    rw [if_neg (by linarith), if_neg (by linarith)]
  · intro h
    by_cases hc : fill < 3 / 10
    · rw [if_pos hc]; ring
    · rw [if_neg hc, if_neg (by linarith)]
      have he : fill = 3 / 10 := le_antisymm h (not_lt.mp hc)
      rw [he]; norm_num
  · intro h
    by_cases hc : fill > 7 / 10
    · rw [if_neg (by linarith), if_pos hc]; ring
    · rw [if_neg (by linarith), if_neg hc]
      have he : fill = 7 / 10 := le_antisymm (not_lt.mp hc) h
      rw [he]; norm_num

/-- C5 witness: the theorem applied at the concrete fill level `1/2`. -/
theorem C5_rate_adjust_mapping_witness :
    SND_calculateRateAdjust (1 / 2) = 1 :=
  (C5_rate_adjust_mapping (1 / 2) (by norm_num) (by norm_num)).2.2.2.2.1

/-- C6: the interpolation intermediate `(b - a) * frac` does NOT stay inside
the signed 32-bit range: at the in-range int16 inputs `a = -32768`,
`b = 32767` and the admissible fraction `frac = 65535 < FRAC_ONE`, the
product is `4294836225 > 2^31 - 1`, contradicting the code's own comment
"Use 32-bit math to avoid overflow". -/
theorem C6_lerp_prod_overflows :
    SampleOK (-32768) ∧ SampleOK 32767 ∧ 65535 < FRAC_ONE ∧
    lerpProd (-32768) 32767 65535 = 4294836225 ∧
    (2 ^ 31 - 1 : ℤ) < 4294836225 := by
  refine ⟨by decide, by decide, by decide, ?_, by decide⟩
  unfold lerpProd
  norm_num

/-- C10 counterexample: at the concrete input `input_frames = -10` with
`rate_in = rate_out = 44100` and `ratio_adjust = 1`, `estimateOutput`
returns `-9` (the C `(int)` cast truncates `-9.5` toward zero), which is
not `round(input_frames * rate_out / rate_in / ratio_adjust) = -10`. -/
theorem C10_counterexample :
    AudioResampler_estimateOutput ⟨44100, 44100, 0, 65536, ⟨0, 0⟩, false⟩ (-10) 1 = -9 ∧
    (⌊((-10 : ℚ) * ((44100 : ℚ) / 44100) / 1 + 1 / 2)⌋ : ℤ) = -10 := by
  constructor
  · unfold AudioResampler_estimateOutput ratTrunc
    norm_num [Int.ceil_eq_iff]
  · norm_num [Int.floor_eq_iff]

/-- C10 (amended): `estimateOutput` returns `input_frames` unchanged whenever
`sample_rate_in ≤ 0` or `ratio_adjust ≤ 0`; for positive rates-in and
adjustment and nonnegative `input_frames` and `sample_rate_out` it returns
`⌊input * rate_out / rate_in / ratio_adjust + 1/2⌋` (round half up); it is a
total function (never faults). -/
theorem C10_estimate_output (r : AudioResampler) (input : ℤ) (ra : ℚ) :
    (r.sample_rate_in ≤ 0 ∨ ra ≤ 0 → AudioResampler_estimateOutput r input ra = input) ∧
    (0 < r.sample_rate_in → 0 < ra → 0 ≤ input → 0 ≤ r.sample_rate_out →
      AudioResampler_estimateOutput r input ra =
        ⌊(input : ℚ) * ((r.sample_rate_out : ℚ) / (r.sample_rate_in : ℚ)) / ra + 1 / 2⌋) := by
  constructor
  · intro h
    unfold AudioResampler_estimateOutput
    rw [if_pos h]
  · intro hin hra hi ho
    unfold AudioResampler_estimateOutput
    rw [if_neg (by push_neg; exact ⟨by linarith, by linarith⟩)]
    unfold ratTrunc
    have hx : (0 : ℚ) ≤ (input : ℚ) * ((r.sample_rate_out : ℚ) / (r.sample_rate_in : ℚ)) / ra := by
      apply div_nonneg _ (le_of_lt hra)
      apply mul_nonneg
      · exact_mod_cast hi
      · apply div_nonneg
        · exact_mod_cast ho
        · exact_mod_cast le_of_lt hin
    rw [if_neg (by linarith)]

/-- C10 witness: the amended theorem applied at a concrete resampler. -/
theorem C10_estimate_output_witness :
    AudioResampler_estimateOutput ⟨44100, 48000, 0, 60211, ⟨0, 0⟩, false⟩ 1000 1 = 1088 := by
  rw [(C10_estimate_output ⟨44100, 48000, 0, 60211, ⟨0, 0⟩, false⟩ 1000 1).2
      (by norm_num) (by norm_num) (by norm_num) (by norm_num)]
  rw [Int.floor_eq_iff]
  constructor <;> norm_num

/-- C2 counterexample: with `rate_in = 48000`, `rate_out = 44100` (the spec's
own Scenario-B rates) and `speed_adjust = 1`, one resample call on 13 frames
leaves the persisted `frac_pos` at `69540 ≥ FRAC_ONE`, violating
`frac_pos < 1.0` between calls. -/
theorem C2_counterexample :
    (AudioResampler_resample (AudioResampler_init 48000 44100) none
        (List.replicate 13 ⟨0, 0⟩) 1).map (fun o => o.resampler.frac_pos) = some 69540 ∧
    ¬ (69540 : ℕ) < FRAC_ONE := by
  constructor
  · unfold AudioResampler_resample
    rw [init_48000_44100_frac_step, adjustedStep_one 71331 (by norm_num)]
    decide
  · decide

/-- C9 counterexample: at the concrete input of two frames with
`rate_in = 44100`, `rate_out = 48000`, the speed adjustment `5003/5000 > 1`
yields `frames_written = 2`, exactly as many as `speed_adjust = 1` does —
not strictly fewer. -/
theorem C9_counterexample :
    (1 : ℚ) < 5003 / 5000 ∧
    (AudioResampler_resample (AudioResampler_init 44100 48000) none
        [⟨0, 0⟩, ⟨0, 0⟩] (5003 / 5000)).map (fun o => o.result.frames_written) = some 2 ∧
    (AudioResampler_resample (AudioResampler_init 44100 48000) none
        [⟨0, 0⟩, ⟨0, 0⟩] 1).map (fun o => o.result.frames_written) = some 2 := by
  refine ⟨by norm_num, ?_, ?_⟩
  · unfold AudioResampler_resample
    rw [init_44100_48000_frac_step, adjustedStep_60211_up]
    decide
  · unfold AudioResampler_resample
    rw [init_44100_48000_frac_step, adjustedStep_one 60211 (by norm_num)]
    decide

/-! ## Inner-loop (spin) lemmas -/

theorem spin_zero (step : ℕ) (pr cu : SND_Frame) (p : ℕ) (buf : Option AudioRingBuffer) :
    spin step pr cu 0 p buf = none := rfl

theorem spin_none_succ (step : ℕ) (pr cu : SND_Frame) (fuel p : ℕ) :
    spin step pr cu (fuel + 1) p none =
      if p < FRAC_ONE then
        match spin step pr cu fuel ((p + step) % 2 ^ 32) none with
        | none => none
        | some (SpinExit.done q b os) => some (SpinExit.done q b (lerpFrame pr cu p :: os))
        | some (SpinExit.full q b os) => some (SpinExit.full q b (lerpFrame pr cu p :: os))
      else some (SpinExit.done p none []) := by
  rw [spin]
  simp only [bufferFullCheck, bufWrite]
  rfl

/-- With no buffer the inner loop can only exit through the loop condition,
never through the buffer-full early exit, and the buffer stays absent. -/
theorem spin_none_shape (step : ℕ) (pr cu : SND_Frame) :
    ∀ fuel p e, spin step pr cu fuel p none = some e →
      ∃ q os, e = SpinExit.done q none os := by
  intro fuel
  induction fuel with
  | zero => intro p e h; rw [spin_zero] at h; cases h
  | succ n ih =>
    intro p e h
    rw [spin_none_succ] at h
    by_cases hp : p < FRAC_ONE
    · rw [if_pos hp] at h
      cases hspin : spin step pr cu n ((p + step) % 2 ^ 32) none with
      | none => rw [hspin] at h; cases h
      | some e' =>
        obtain ⟨q, os, rfl⟩ := ih _ _ hspin
        rw [hspin] at h
        cases h
        exact ⟨q, lerpFrame pr cu p :: os, rfl⟩
    · rw [if_neg hp] at h
      cases h
      exact ⟨p, [], rfl⟩

theorem pow32_eq : (2 : ℕ) ^ 32 = 4294967296 := by norm_num

/-- The inner loop exits (`done`) only at a phase `≥ FRAC_ONE`, and the exit
phase is the entry phase (no iterations) or below `FRAC_ONE + step`. -/
theorem spin_done_bound (step : ℕ) (pr cu : SND_Frame) :
    ∀ fuel p buf q b os, spin step pr cu fuel p buf = some (SpinExit.done q b os) →
      FRAC_ONE ≤ q ∧ (q = p ∨ q < FRAC_ONE + step) := by
  intro fuel
  induction fuel with
  | zero => intro p buf q b os h; rw [spin_zero] at h; cases h
  | succ n ih =>
    intro p buf q b os h
    rw [spin] at h
    by_cases hp : p < FRAC_ONE
    · rw [if_pos hp] at h
      by_cases hfull : bufferFullCheck buf = true
      · rw [if_pos hfull] at h; cases h
      · rw [if_neg hfull] at h
        cases hspin : spin step pr cu n ((p + step) % 2 ^ 32)
            (bufWrite buf (lerpFrame pr cu p)) with
        | none => rw [hspin] at h; cases h
        | some e' =>
          cases e' with
          | done q' b' os' =>
            rw [hspin] at h
            cases h
            obtain ⟨h1, h2⟩ := ih _ _ _ _ _ hspin
            refine ⟨h1, Or.inr ?_⟩
            rcases h2 with h2 | h2
            · subst h2
              have hm : (p + step) % 2 ^ 32 < 2 ^ 32 := Nat.mod_lt _ (by norm_num)
              have hm2 : (p + step) % 2 ^ 32 ≤ p + step := Nat.mod_le _ _
              rw [pow32_eq] at hm
              rw [FRAC_ONE_eq] at hp ⊢
              omega
            · exact h2
          | full q' b' os' => rw [hspin] at h; cases h
    · rw [if_neg hp] at h
      cases h
      exact ⟨le_of_not_lt hp, Or.inl rfl⟩

/-- The buffer-full early exit preserves a phase strictly below `FRAC_ONE`. -/
theorem spin_full_lt (step : ℕ) (pr cu : SND_Frame) :
    ∀ fuel p buf q b os, spin step pr cu fuel p buf = some (SpinExit.full q b os) →
      q < FRAC_ONE := by
  intro fuel
  induction fuel with
  | zero => intro p buf q b os h; rw [spin_zero] at h; cases h
  | succ n ih =>
    intro p buf q b os h
    rw [spin] at h
    by_cases hp : p < FRAC_ONE
    · rw [if_pos hp] at h
      by_cases hfull : bufferFullCheck buf = true
      · rw [if_pos hfull] at h; cases h; exact hp
      · rw [if_neg hfull] at h
        cases hspin : spin step pr cu n ((p + step) % 2 ^ 32)
            (bufWrite buf (lerpFrame pr cu p)) with
        | none => rw [hspin] at h; cases h
        | some e' =>
          cases e' with
          | done q' b' os' => rw [hspin] at h; cases h
          | full q' b' os' =>
            rw [hspin] at h
            cases h
            exact ih _ _ _ _ _ hspin
    · rw [if_neg hp] at h
      cases h

/-- While the phase is below `FRAC_ONE`, a `StepOK` step cannot wrap. -/
theorem step_no_wrap {step p : ℕ} (hs : StepOK step) (hp : p < FRAC_ONE) :
    (p + step) % 2 ^ 32 = p + step := by
  obtain ⟨h1, h2⟩ := hs
  rw [FRAC_ONE_eq] at hp h2
  exact Nat.mod_eq_of_lt (by rw [pow32_eq] at *; omega)

/-- Conservation through one run of the inner loop (dry buffer): the exit
phase is the entry phase plus `step` for each emitted frame. -/
theorem spin_cons (step : ℕ) (pr cu : SND_Frame) (hs : StepOK step) :
    ∀ fuel p q b os, spin step pr cu fuel p none = some (SpinExit.done q b os) →
      q = p + os.length * step := by
  intro fuel
  induction fuel with
  | zero => intro p q b os h; rw [spin_zero] at h; cases h
  | succ n ih =>
    intro p q b os h
    rw [spin_none_succ] at h
    by_cases hp : p < FRAC_ONE
    · rw [if_pos hp] at h
      cases hspin : spin step pr cu n ((p + step) % 2 ^ 32) none with
      | none => rw [hspin] at h; cases h
      | some e' =>
        cases e' with
        | done q' b' os' =>
          rw [hspin] at h
          cases h
          have hq := ih _ _ _ _ hspin
          rw [step_no_wrap hs hp] at hq
          simp only [List.length_cons]
          rw [hq]; ring
        | full q' b' os' =>
          obtain ⟨_, _, h'⟩ := spin_none_shape step pr cu n _ _ hspin
          cases h'
    · rw [if_neg hp] at h
      cases h
      simp

/-- Sufficient fuel: with a positive non-wrapping step the inner dry run
always returns. -/
theorem spin_none_some (step : ℕ) (pr cu : SND_Frame) (hs : StepOK step) :
    ∀ fuel p, 1 ≤ fuel → FRAC_ONE < p + fuel →
      ∃ q os, spin step pr cu fuel p none = some (SpinExit.done q none os) := by
  intro fuel
  induction fuel with
  | zero => intro p h1 _; omega
  | succ n ih =>
    intro p _ h2
    rw [spin_none_succ]
    by_cases hp : p < FRAC_ONE
    · rw [if_pos hp]
      have hn1 : 1 ≤ n := by
        rcases Nat.eq_zero_or_pos n with h | h
        · subst h; omega
        · exact h
      have hn2 : FRAC_ONE < (p + step) % 2 ^ 32 + n := by
        rw [step_no_wrap hs hp]
        have := hs.1
        omega
      obtain ⟨q, os, hq⟩ := ih ((p + step) % 2 ^ 32) hn1 hn2
      rw [hq]
      exact ⟨q, lerpFrame pr cu p :: os, rfl⟩
    · rw [if_neg hp]
      exact ⟨p, [], rfl⟩

/-- Any two sufficient fuels give the same dry-run result. -/
theorem spin_fuel_irrel (step : ℕ) (pr cu : SND_Frame) (hs : StepOK step) :
    ∀ fuel₁ fuel₂ p, 1 ≤ fuel₁ → FRAC_ONE < p + fuel₁ → 1 ≤ fuel₂ → FRAC_ONE < p + fuel₂ →
      spin step pr cu fuel₁ p none = spin step pr cu fuel₂ p none := by
  intro fuel₁
  induction fuel₁ with
  | zero => intro fuel₂ p h1 _ _ _; omega
  | succ n ih =>
    intro fuel₂ p _ h2 hf1 hf2
    cases fuel₂ with
    | zero => omega
    | succ m =>
      rw [spin_none_succ, spin_none_succ]
      by_cases hp : p < FRAC_ONE
      · rw [if_pos hp, if_pos hp]
        have hstep := hs.1
        have hn1 : 1 ≤ n := by
          rcases Nat.eq_zero_or_pos n with h | h
          · subst h; omega
          · exact h
        have hm1 : 1 ≤ m := by
          rcases Nat.eq_zero_or_pos m with h | h
          · subst h; omega
          · exact h
        have hw := step_no_wrap hs hp
        have hn2 : FRAC_ONE < (p + step) % 2 ^ 32 + n := by rw [hw]; omega
        have hm2 : FRAC_ONE < (p + step) % 2 ^ 32 + m := by rw [hw]; omega
        rw [ih m ((p + step) % 2 ^ 32) hn1 hn2 hm1 hm2]
      · rw [if_neg hp, if_neg hp]

/-! ## Outer-loop lemmas -/

theorem resampleLoop_nil (step : ℕ) (s : LoopState) : resampleLoop step [] s = some s := rfl

theorem resampleLoop_cons_boot (step : ℕ) (curr : SND_Frame) (rest : List SND_Frame)
    (p : ℕ) (pr : SND_Frame) (buf : Option AudioRingBuffer) (w c : ℕ) (o : List SND_Frame) :
    resampleLoop step (curr :: rest) ⟨p, pr, false, buf, w, c, o⟩ =
      resampleLoop step rest ⟨p, curr, true, buf, w, c + 1, o⟩ := rfl

theorem resampleLoop_cons_spin (step : ℕ) (curr : SND_Frame) (rest : List SND_Frame)
    (p : ℕ) (pr : SND_Frame) (buf : Option AudioRingBuffer) (w c : ℕ) (o : List SND_Frame) :
    resampleLoop step (curr :: rest) ⟨p, pr, true, buf, w, c, o⟩ =
      match spin step pr curr (FRAC_ONE + 1) p buf with
      | none => none
      | some (SpinExit.full q b os) => some ⟨q, pr, true, b, w + os.length, c, o ++ os⟩
      | some (SpinExit.done q b os) =>
        resampleLoop step rest ⟨q - FRAC_ONE, curr, true, b, w + os.length, c + 1, o ++ os⟩ := rfl

theorem shiftLS_shiftLS (w c : ℕ) (o : List SND_Frame) (w' c' : ℕ) (o' : List SND_Frame)
    (t : LoopState) :
    shiftLS w c o (shiftLS w' c' o' t) = shiftLS (w + w') (c + c') (o ++ o') t := by
  simp [shiftLS, Nat.add_assoc, List.append_assoc]

theorem shiftLS_zero (t : LoopState) : shiftLS 0 0 [] t = t := by
  simp [shiftLS]

/-- Frame rule: a loop run with arbitrary starting accumulators is the run
with zeroed accumulators, shifted. -/
theorem resampleLoop_shift (step : ℕ) :
    ∀ (frames : List SND_Frame) (p : ℕ) (pr : SND_Frame) (hp : Bool)
      (buf : Option AudioRingBuffer) (w c : ℕ) (o : List SND_Frame),
      resampleLoop step frames ⟨p, pr, hp, buf, w, c, o⟩ =
        (resampleLoop step frames ⟨p, pr, hp, buf, 0, 0, []⟩).map (shiftLS w c o) := by
  intro frames
  induction frames with
  | nil =>
    intro p pr hp buf w c o
    simp [resampleLoop_nil, shiftLS]
  | cons curr rest ih =>
    intro p pr hp buf w c o
    cases hp with
    | false =>
      rw [resampleLoop_cons_boot, resampleLoop_cons_boot]
      rw [ih, ih p curr true buf 0 1 [], Option.map_map]
      apply congrArg (fun g => Option.map g _)
      funext t
      simp [Function.comp, shiftLS_shiftLS]
    | true =>
      rw [resampleLoop_cons_spin, resampleLoop_cons_spin]
      cases hspin : spin step pr curr (FRAC_ONE + 1) p buf with
      | none => rfl
      | some e =>
        cases e with
        | done q b os =>
          dsimp only []
          rw [ih, ih (q - FRAC_ONE) curr true b (0 + os.length) (0 + 1) ([] ++ os),
            Option.map_map]
          apply congrArg (fun g => Option.map g _)
          funext t
          simp [Function.comp, shiftLS_shiftLS, Nat.add_assoc]
        | full q b os =>
          dsimp only []
          simp [shiftLS]

/-- With no buffer, a loop run never stops early: appended inputs compose. -/
theorem resampleLoop_append (step : ℕ) :
    ∀ (xs ys : List SND_Frame) (p : ℕ) (pr : SND_Frame) (hp : Bool) (w c : ℕ)
      (o : List SND_Frame),
      resampleLoop step (xs ++ ys) ⟨p, pr, hp, none, w, c, o⟩ =
        (resampleLoop step xs ⟨p, pr, hp, none, w, c, o⟩).bind
          (fun t => resampleLoop step ys t) := by
  intro xs
  induction xs with
  | nil =>
    intro ys p pr hp w c o
    simp [resampleLoop_nil]
  | cons curr rest ih =>
    intro ys p pr hp w c o
    rw [List.cons_append]
    cases hp with
    | false =>
      rw [resampleLoop_cons_boot, resampleLoop_cons_boot]
      exact ih ys p curr true w (c + 1) o
    | true =>
      rw [resampleLoop_cons_spin, resampleLoop_cons_spin]
      cases hspin : spin step pr curr (FRAC_ONE + 1) p none with
      | none => rfl
      | some e =>
        obtain ⟨q, os, rfl⟩ := spin_none_shape step pr curr _ _ _ hspin
        dsimp only []
        exact ih ys (q - FRAC_ONE) curr true (w + os.length) (c + 1) (o ++ os)

theorem resampleLoop_none_buf (step : ℕ) :
    ∀ (frames : List SND_Frame) (p : ℕ) (pr : SND_Frame) (hp : Bool) (w c : ℕ)
      (o : List SND_Frame) (t : LoopState),
      resampleLoop step frames ⟨p, pr, hp, none, w, c, o⟩ = some t → t.buf = none := by
  intro frames
  induction frames with
  | nil =>
    intro p pr hp w c o t h
    rw [resampleLoop_nil] at h
    cases h
    rfl
  | cons curr rest ih =>
    intro p pr hp w c o t h
    cases hp with
    | false =>
      rw [resampleLoop_cons_boot] at h
      exact ih p curr true w (c + 1) o t h
    | true =>
      rw [resampleLoop_cons_spin] at h
      cases hspin : spin step pr curr (FRAC_ONE + 1) p none with
      | none => rw [hspin] at h; cases h
      | some e =>
        obtain ⟨q, os, rfl⟩ := spin_none_shape step pr curr _ _ _ hspin
        rw [hspin] at h
        exact ih (q - FRAC_ONE) curr true (w + os.length) (c + 1) (o ++ os) t h

theorem resample_nil (r : AudioResampler) (buf : Option AudioRingBuffer) (ra : ℚ) :
    AudioResampler_resample r buf [] ra = some ⟨⟨0, 0⟩, r, buf, []⟩ := rfl

/-- Splitting one dry-run resample call over an appended input: the states
chain, the counters add, the output streams concatenate. -/
theorem resample_append (r : AudioResampler) (ra : ℚ) (xs ys : List SND_Frame) :
    AudioResampler_resample r none (xs ++ ys) ra =
      (AudioResampler_resample r none xs ra).bind (fun o₁ =>
        (AudioResampler_resample o₁.resampler none ys ra).map (fun o₂ =>
          ⟨⟨o₁.result.frames_written + o₂.result.frames_written,
            o₁.result.frames_consumed + o₂.result.frames_consumed⟩,
           o₂.resampler, none, o₁.outs ++ o₂.outs⟩)) := by
  cases xs with
  | nil =>
    rw [List.nil_append, resample_nil]
    show AudioResampler_resample r none ys ra =
      (AudioResampler_resample r none ys ra).map _
    cases hy : AudioResampler_resample r none ys ra with
    | none => rfl
    | some o₂ =>
      obtain ⟨⟨w₂, n₂⟩, r₂, b₂, os₂⟩ := o₂
      have hb : b₂ = none := by
        unfold AudioResampler_resample resampleCore at hy
        by_cases hl : ys.length = 0
        · rw [if_pos hl] at hy; cases hy; rfl
        · rw [if_neg hl] at hy
          cases hloop : resampleLoop (adjustedStep r.frac_step ra) ys
              ⟨r.frac_pos, r.prev_frame, r.has_prev, none, 0, 0, []⟩ with
          | none => rw [hloop] at hy; cases hy
          | some t =>
            rw [hloop] at hy
            cases hy
            exact resampleLoop_none_buf _ ys _ _ _ _ _ _ t hloop
      subst hb
      simp
  | cons a l =>
    unfold AudioResampler_resample resampleCore
    rw [if_neg (show ¬((a :: l) ++ ys).length = 0 by simp)]
    rw [if_neg (show ¬(a :: l).length = 0 by simp)]
    rw [resampleLoop_append]
    cases hloop : resampleLoop (adjustedStep r.frac_step ra) (a :: l)
        ⟨r.frac_pos, r.prev_frame, r.has_prev, none, 0, 0, []⟩ with
    | none => rfl
    | some t₁ =>
      obtain ⟨p₁, pr₁, hp₁, buf₁, w₁, c₁, o₁s⟩ := t₁
      have hb₁ : buf₁ = none := resampleLoop_none_buf _ _ _ _ _ _ _ _ _ hloop
      subst hb₁
      rw [Option.some_bind, Option.some_bind]
      dsimp only
      by_cases hys : ys.length = 0
      · rcases List.length_eq_zero.mp hys with rfl
        simp
        rw [resampleLoop_nil]
      · rw [if_neg hys, resampleLoop_shift]
        cases hloop2 : resampleLoop (adjustedStep r.frac_step ra) ys
            ⟨p₁, pr₁, hp₁, none, 0, 0, []⟩ with
        | none => rfl
        | some t₂ =>
          obtain ⟨p₂, pr₂, hp₂, buf₂, w₂, c₂, o₂s⟩ := t₂
          have hb₂ : buf₂ = none := resampleLoop_none_buf _ _ _ _ _ _ _ _ _ hloop2
          subst hb₂
          simp [shiftLS]

/-- Chunked delivery equals one big call (shared lemma behind C1 and the
scenario claims): same totals, same output stream, same final state. -/
theorem resampleChunks_eq_flatten (ra : ℚ) :
    ∀ (chunks : List (List SND_Frame)) (r : AudioResampler),
      resampleChunks ra r chunks =
        (AudioResampler_resample r none chunks.flatten ra).map
          (fun o => (o.result.frames_written, o.result.frames_consumed, o.outs, o.resampler)) := by
  intro chunks
  induction chunks with
  | nil =>
    intro r
    simp [resampleChunks, resample_nil]
  | cons c cs ih =>
    intro r
    rw [resampleChunks, List.flatten_cons, resample_append]
    cases h1 : AudioResampler_resample r none c ra with
    | none => rfl
    | some o₁ =>
      rw [Option.some_bind]
      dsimp only
      rw [ih o₁.resampler]
      cases h2 : AudioResampler_resample o₁.resampler none cs.flatten ra with
      | none => rfl
      | some o₂ => simp

/-- With a dry buffer and a positive non-wrapping step, every loop run
returns. -/
theorem resampleLoop_none_some (step : ℕ) (hs : StepOK step) :
    ∀ (frames : List SND_Frame) (p : ℕ) (pr : SND_Frame) (hp : Bool) (w c : ℕ)
      (o : List SND_Frame),
      ∃ t, resampleLoop step frames ⟨p, pr, hp, none, w, c, o⟩ = some t := by
  intro frames
  induction frames with
  | nil => intro p pr hp w c o; exact ⟨_, resampleLoop_nil step _⟩
  | cons curr rest ih =>
    intro p pr hp w c o
    cases hp with
    | false =>
      rw [resampleLoop_cons_boot]
      exact ih p curr true w (c + 1) o
    | true =>
      rw [resampleLoop_cons_spin]
      obtain ⟨q, os, hq⟩ := spin_none_some step pr curr hs (FRAC_ONE + 1) p (by omega) (by omega)
      rw [hq]
      exact ih (q - FRAC_ONE) curr true (w + os.length) (c + 1) (o ++ os)

/-- Phase bound across one whole call: if the step stays below `M` (with
`FRAC_ONE ≤ M`), a starting phase below `M` leaves a final phase below `M` —
for any buffer, including buffer-full early exits. -/
theorem resampleLoop_phase_bound (step M : ℕ) (hstep : 1 ≤ step) (hM : FRAC_ONE ≤ M)
    (hsM : step ≤ M) :
    ∀ (frames : List SND_Frame) (s t : LoopState),
      resampleLoop step frames s = some t → s.frac_pos < M → t.frac_pos < M := by
  intro frames
  induction frames with
  | nil =>
    intro s t h hp
    rw [resampleLoop_nil] at h
    cases h
    exact hp
  | cons curr rest ih =>
    intro s t h hp
    obtain ⟨p, pr, hb, buf, w, c, o⟩ := s
    cases hb with
    | false =>
      rw [resampleLoop_cons_boot] at h
      exact ih _ _ h hp
    | true =>
      rw [resampleLoop_cons_spin] at h
      cases hspin : spin step pr curr (FRAC_ONE + 1) p buf with
      | none => rw [hspin] at h; cases h
      | some e =>
        cases e with
        | done q b os =>
          rw [hspin] at h
          obtain ⟨hq1, hq2⟩ := spin_done_bound step pr curr _ _ _ _ _ _ hspin
          have hlt : q - FRAC_ONE < M := by
            rcases hq2 with rfl | hq2
            · simp only at hp
              omega
            · omega
          exact ih _ _ h hlt
        | full q b os =>
          rw [hspin] at h
          cases h
          have := spin_full_lt step pr curr _ _ _ _ _ _ hspin
          simp only
          omega

/-- Conservation and tight phase bound for a whole dry-run loop pass from an
interpolating state: `written * step` advances exactly `FRAC_ONE` per
consumed frame plus the phase change, everything is consumed, and a phase
below `step` stays below `step`. -/
theorem resampleLoop_conservation (step : ℕ) (hs : StepOK step) :
    ∀ (frames : List SND_Frame) (p : ℕ) (pr : SND_Frame) (t : LoopState),
      resampleLoop step frames ⟨p, pr, true, none, 0, 0, []⟩ = some t →
      t.written * step + p = frames.length * FRAC_ONE + t.frac_pos ∧
      t.consumed = frames.length ∧
      (p < step → t.frac_pos < step) := by
  intro frames
  induction frames with
  | nil =>
    intro p pr t h
    rw [resampleLoop_nil] at h
    cases h
    exact ⟨by simp, rfl, fun h => h⟩
  | cons curr rest ih =>
    intro p pr t h
    rw [resampleLoop_cons_spin] at h
    cases hspin : spin step pr curr (FRAC_ONE + 1) p none with
    | none => rw [hspin] at h; cases h
    | some e =>
      obtain ⟨q, os, rfl⟩ := spin_none_shape step pr curr _ _ _ hspin
      rw [hspin] at h
      dsimp only at h
      rw [resampleLoop_shift] at h
      cases hloop : resampleLoop step rest ⟨q - FRAC_ONE, curr, true, none, 0, 0, []⟩ with
      | none => rw [hloop] at h; cases h
      | some t' =>
        rw [hloop] at h
        cases h
        obtain ⟨hc1, hc2, hc3⟩ := ih (q - FRAC_ONE) curr t' hloop
        have hq := spin_cons step pr curr hs _ _ _ _ _ hspin
        obtain ⟨hq1, hq2⟩ := spin_done_bound step pr curr _ _ _ _ _ _ hspin
        refine ⟨?_, ?_, ?_⟩
        · simp only [shiftLS, List.length_cons, Nat.add_mul, Nat.one_mul, Nat.zero_add]
          have hql : q = p + os.length * step := hq
          omega
        · simp only [shiftLS, List.length_cons]
          omega
        · intro hplt
          simp only [shiftLS]
          apply hc3
          rcases hq2 with rfl | hq2 <;> omega

/-- Uniqueness of the written count from the conservation identity. -/
theorem nat_div_unique_ceil {X s w pf : ℕ} (hs : 1 ≤ s) (hw : w * s = X + pf)
    (hpf : pf < s) : w = (X + (s - 1)) / s := by
  have hlo : w * s ≤ X + (s - 1) := by omega
  have hhi : X + (s - 1) < (w + 1) * s := by
    rw [Nat.add_mul, Nat.one_mul]
    omega
  symm
  exact Nat.div_eq_of_lt_le hlo hhi

/-- Ceiling division is antitone in the divisor. -/
theorem ceil_div_antitone {X s s' : ℕ} (h1 : 1 ≤ s) (hss : s ≤ s') :
    (X + (s' - 1)) / s' ≤ (X + (s - 1)) / s := by
  have h1' : 0 < s' := by omega
  set a := (X + (s - 1)) / s with ha
  have hlt : (X + (s - 1)) / s < a + 1 := by omega
  rw [Nat.div_lt_iff_lt_mul (by omega : 0 < s)] at hlt
  have hXa : X ≤ a * s := by
    rw [Nat.add_mul, Nat.one_mul] at hlt
    omega
  have hXa' : X ≤ a * s' := le_trans hXa (Nat.mul_le_mul_left a hss)
  have : X + (s' - 1) < (a + 1) * s' := by
    rw [Nat.add_mul, Nat.one_mul]
    omega
  have := (Nat.div_lt_iff_lt_mul h1').mpr this
  omega

/-- Closed form for a fresh (post-init/post-reset) dry run: everything is
consumed, and the written count is the ceiling `(n-1)*FRAC_ONE / step`,
rounded up. -/
theorem resample_fresh_counts (r : AudioResampler) (frames : List SND_Frame) (ra : ℚ)
    (hfresh : r.has_prev = false) (hp0 : r.frac_pos = 0)
    (hs : StepOK (adjustedStep r.frac_step ra)) (hn : frames ≠ []) :
    ∃ o, AudioResampler_resample r none frames ra = some o ∧
      o.result.frames_consumed = frames.length ∧
      o.result.frames_written =
        ((frames.length - 1) * FRAC_ONE + (adjustedStep r.frac_step ra - 1)) /
          adjustedStep r.frac_step ra := by
  obtain ⟨f, rest, rfl⟩ : ∃ f rest, frames = f :: rest := by
    cases frames with
    | nil => exact absurd rfl hn
    | cons f rest => exact ⟨f, rest, rfl⟩
  have hstep1 : 1 ≤ adjustedStep r.frac_step ra := hs.1
  unfold AudioResampler_resample resampleCore
  rw [if_neg (by simp)]
  rw [hp0, hfresh, resampleLoop_cons_boot, resampleLoop_shift]
  obtain ⟨t, ht⟩ := resampleLoop_none_some _ hs rest 0 f true 0 0 []
  rw [ht]
  obtain ⟨hc1, hc2, hc3⟩ := resampleLoop_conservation _ hs rest 0 f t ht
  refine ⟨_, rfl, ?_, ?_⟩
  · simp [shiftLS, hc2]
    omega
  · simp only [shiftLS, Nat.zero_add, List.length_cons]
    have hw : t.written * adjustedStep r.frac_step ra =
        rest.length * FRAC_ONE + t.frac_pos := by omega
    have hpf : t.frac_pos < adjustedStep r.frac_step ra := hc3 hstep1
    rw [show rest.length + 1 - 1 = rest.length by omega]
    exact nat_div_unique_ceil hstep1 hw hpf

/-- Resampling never changes the configured rates or the base step. -/
theorem resample_fixed_fields (r : AudioResampler) (buf : Option AudioRingBuffer)
    (frames : List SND_Frame) (ra : ℚ) (o : ResampleOut)
    (h : AudioResampler_resample r buf frames ra = some o) :
    o.resampler.frac_step = r.frac_step ∧
    o.resampler.sample_rate_in = r.sample_rate_in ∧
    o.resampler.sample_rate_out = r.sample_rate_out := by
  unfold AudioResampler_resample resampleCore at h
  by_cases hl : frames.length = 0
  · rw [if_pos hl] at h
    cases h
    exact ⟨rfl, rfl, rfl⟩
  · rw [if_neg hl] at h
    cases hloop : resampleLoop (adjustedStep r.frac_step ra) frames
        ⟨r.frac_pos, r.prev_frame, r.has_prev, buf, 0, 0, []⟩ with
    | none => rw [hloop] at h; cases h
    | some t => rw [hloop] at h; cases h; exact ⟨rfl, rfl, rfl⟩

/-- Phase bound through one full `AudioResampler_resample` call (any buffer,
including buffer-full early exits). -/
theorem resample_phase_bound (r : AudioResampler) (buf : Option AudioRingBuffer)
    (frames : List SND_Frame) (ra : ℚ) (M : ℕ) (hM : FRAC_ONE ≤ M)
    (h1 : 1 ≤ adjustedStep r.frac_step ra) (h2 : adjustedStep r.frac_step ra ≤ M)
    (o : ResampleOut) (h : AudioResampler_resample r buf frames ra = some o)
    (hp : r.frac_pos < M) : o.resampler.frac_pos < M := by
  unfold AudioResampler_resample resampleCore at h
  by_cases hl : frames.length = 0
  · rw [if_pos hl] at h
    cases h
    exact hp
  · rw [if_neg hl] at h
    cases hloop : resampleLoop (adjustedStep r.frac_step ra) frames
        ⟨r.frac_pos, r.prev_frame, r.has_prev, buf, 0, 0, []⟩ with
    | none => rw [hloop] at h; cases h
    | some t =>
      rw [hloop] at h
      cases h
      exact resampleLoop_phase_bound _ M h1 hM h2 frames _ t hloop hp

/-- C2 (amended): across any sequence of resample calls from an initialized
resampler, the persisted phase stays below any bound `M ≥ FRAC_ONE` that also
bounds every call's clamped step; `0 ≤ frac_pos` holds by construction.  In
particular `frac_pos < FRAC_ONE` holds whenever every clamped step is at most
`FRAC_ONE` — but not in general (see the counterexample, where a
downsampling step `> FRAC_ONE` drives `frac_pos` to `69540`). -/
theorem C2_phase_invariant (calls : List (Option AudioRingBuffer × List SND_Frame × ℚ)) :
    ∀ (r₀ : AudioResampler) (M : ℕ), FRAC_ONE ≤ M → r₀.frac_pos < M →
      (∀ c ∈ calls, 1 ≤ adjustedStep r₀.frac_step c.2.2 ∧ adjustedStep r₀.frac_step c.2.2 ≤ M) →
      ∀ r', resampleCallSeq r₀ calls = some r' → r'.frac_pos < M := by
  induction calls with
  | nil =>
    intro r₀ M _ hp _ r' h
    cases h
    exact hp
  | cons call rest ih =>
    intro r₀ M hM hp hcalls r' h
    obtain ⟨buf, frames, ra⟩ := call
    rw [resampleCallSeq] at h
    cases hcall : AudioResampler_resample r₀ buf frames ra with
    | none => rw [hcall] at h; cases h
    | some o =>
      rw [hcall] at h
      obtain ⟨h1, h2⟩ := hcalls (buf, frames, ra) (by simp)
      have hpo : o.resampler.frac_pos < M :=
        resample_phase_bound r₀ buf frames ra M hM h1 h2 o hcall hp
      have hfs := (resample_fixed_fields r₀ buf frames ra o hcall).1
      apply ih o.resampler M hM hpo _ r' h
      intro c hc
      rw [hfs]
      exact hcalls c (by simp [hc])

/-- C2 witness: the amended invariant applied to one concrete upsampling
call, whose clamped step `60211 ≤ FRAC_ONE` keeps `frac_pos < FRAC_ONE`. -/
theorem C2_phase_invariant_witness :
    resampleCallSeq (AudioResampler_init 44100 48000) [(none, [⟨0, 0⟩, ⟨0, 0⟩], 1)] =
      some ⟨44100, 48000, 54886, 60211, ⟨0, 0⟩, true⟩ ∧
    (AudioResampler.mk 44100 48000 54886 60211 ⟨0, 0⟩ true).frac_pos < FRAC_ONE := by
  have hseq : resampleCallSeq (AudioResampler_init 44100 48000)
      [(none, [⟨0, 0⟩, ⟨0, 0⟩], 1)] = some ⟨44100, 48000, 54886, 60211, ⟨0, 0⟩, true⟩ := by
    unfold resampleCallSeq AudioResampler_resample
    rw [init_44100_48000_frac_step, adjustedStep_one 60211 (by norm_num)]
    decide
  refine ⟨hseq, ?_⟩
  apply C2_phase_invariant [(none, [⟨0, 0⟩, ⟨0, 0⟩], 1)] (AudioResampler_init 44100 48000)
      FRAC_ONE (le_refl _) (by decide) ?_ _ hseq
  intro c hc
  simp only [List.mem_singleton] at hc
  subst hc
  rw [init_44100_48000_frac_step, adjustedStep_one 60211 (by norm_num)]
  constructor
  · norm_num
  · rw [FRAC_ONE_eq]; norm_num

/-! ## C1: chunking invariance -/

/-- C1: feeding any partition of an input sequence to successive resample
calls (unbounded/dry output, fixed speed adjustment) produces exactly the
same output frame stream, the same total `frames_written` and
`frames_consumed`, and the same final resampler state as one call over the
whole sequence. -/
theorem C1_chunking_invariance (r : AudioResampler) (ra : ℚ) (chunks : List (List SND_Frame)) :
    resampleChunks ra r chunks =
      (AudioResampler_resample r none chunks.flatten ra).map
        (fun o => (o.result.frames_written, o.result.frames_consumed, o.outs, o.resampler)) :=
  resampleChunks_eq_flatten ra chunks r

/-! ## C3: passthrough identity -/

theorem toInt16_eq_self {x : ℤ} (h : SampleOK x) : toInt16 x = x := by
  obtain ⟨h1, h2⟩ := h
  unfold toInt16
  rw [Int.emod_eq_of_lt (by omega) (by omega)]
  omega

theorem lerp_s16_zero (a b : ℤ) (h : SampleOK a) : lerp_s16 a b 0 = a := by
  have hp : lerpProd a b 0 = 0 := by unfold lerpProd; simp
  unfold lerp_s16
  rw [hp, Int.zero_fdiv, add_zero]
  exact toInt16_eq_self h

theorem lerpFrame_zero (pr curr : SND_Frame) (h : FrameOK pr) : lerpFrame pr curr 0 = pr := by
  obtain ⟨h1, h2⟩ := h
  unfold lerpFrame
  rw [lerp_s16_zero _ _ h1, lerp_s16_zero _ _ h2]

/-- When both rates are equal (and representable as a C `int`), `init`
computes the passthrough step `FRAC_ONE`. -/
theorem init_same_rate_frac_step (rate : ℤ) (h1 : 0 < rate) (h2 : rate < 2 ^ 31) :
    (AudioResampler_init rate rate).frac_step = FRAC_ONE := by
  unfold AudioResampler_init
  rw [if_neg (by omega)]
  have he : rate.emod (2 ^ 64) = rate := Int.emod_eq_of_lt (by omega) (by norm_num; omega)
  rw [he]
  have hn : (1 : ℕ) ≤ rate.toNat := by omega
  have hlt : rate.toNat < 2 ^ 31 := by omega
  rw [Nat.shiftLeft_eq]
  have hsm : rate.toNat * 2 ^ FRAC_BITS % 2 ^ 64 = rate.toNat * 2 ^ FRAC_BITS := by
    apply Nat.mod_eq_of_lt
    calc rate.toNat * 2 ^ FRAC_BITS ≤ (2 ^ 31 - 1) * 2 ^ FRAC_BITS :=
          Nat.mul_le_mul_right _ (by omega)
      _ < 2 ^ 64 := by norm_num [FRAC_BITS]
  rw [hsm, Nat.mul_comm, Nat.mul_div_cancel _ (by omega)]
  rw [Nat.mod_eq_of_lt (by norm_num [FRAC_BITS])]
  rfl

/-- At step exactly `FRAC_ONE` and phase 0, one inner-loop run emits exactly
one frame and lands back on phase 0 after the outer `-= FRAC_ONE`. -/
theorem spin_ONE_once (pr curr : SND_Frame) :
    spin FRAC_ONE pr curr (FRAC_ONE + 1) 0 none =
      some (SpinExit.done FRAC_ONE none [lerpFrame pr curr 0]) := by
  rw [spin_none_succ, if_pos (by rw [FRAC_ONE_eq]; omega)]
  rw [show (0 + FRAC_ONE) % 2 ^ 32 = FRAC_ONE by rw [FRAC_ONE_eq]; norm_num]
  rw [show (FRAC_ONE : ℕ) = 65535 + 1 from rfl]
  rw [spin_none_succ, if_neg (by rw [FRAC_ONE_eq]; omega)]

/-- A passthrough loop pass: each frame emits the previous frame once. -/
theorem resampleLoop_passthrough :
    ∀ (rest : List SND_Frame) (pr : SND_Frame), FrameOK pr → (∀ f ∈ rest, FrameOK f) →
      resampleLoop FRAC_ONE rest ⟨0, pr, true, none, 0, 0, []⟩ =
        some ⟨0, rest.getLastD pr, true, none, rest.length, rest.length,
              (pr :: rest).dropLast⟩ := by
  intro rest
  induction rest with
  | nil => intro pr _ _; rw [resampleLoop_nil]; rfl
  | cons curr rest' ih =>
    intro pr hpr hok
    rw [resampleLoop_cons_spin, spin_ONE_once]
    dsimp only
    rw [Nat.sub_self, resampleLoop_shift]
    rw [ih curr (hok curr (by simp)) (fun f hf => hok f (by simp [hf]))]
    rw [lerpFrame_zero pr curr hpr]
    simp [shiftLS, List.dropLast_cons₂]
    constructor
    · cases rest' with
      | nil => rfl
      | cons a l =>
        rw [List.getLast?_cons_cons]
        cases hgl : (a :: l).getLast? with
        | none => simp at hgl
        | some x => rfl
    · omega

theorem init_frac_pos (a b : ℤ) : (AudioResampler_init a b).frac_pos = 0 := rfl

theorem init_has_prev (a b : ℤ) : (AudioResampler_init a b).has_prev = false := rfl

theorem init_prev_frame (a b : ℤ) : (AudioResampler_init a b).prev_frame = ⟨0, 0⟩ := rfl

/-- C3: passthrough identity.  With `rate_in = rate_out` and
`speed_adjust = 1`, a fresh resampler consumes every frame, writes
`count - 1` frames (the first-ever frame is the bootstrap and produces no
output), and each output frame equals the corresponding input frame
exactly. -/
theorem C3_passthrough_identity (rate : ℤ) (h1 : 0 < rate) (h2 : rate < 2 ^ 31)
    (frames : List SND_Frame) (hne : frames ≠ []) (hok : ∀ f ∈ frames, FrameOK f) :
    ∃ o, AudioResampler_resample (AudioResampler_init rate rate) none frames 1 = some o ∧
      o.result.frames_consumed = frames.length ∧
      o.result.frames_written = frames.length - 1 ∧
      o.outs = frames.dropLast := by
  obtain ⟨f, rest, rfl⟩ := List.exists_cons_of_ne_nil hne
  unfold AudioResampler_resample
  rw [init_same_rate_frac_step rate h1 h2,
    adjustedStep_one FRAC_ONE (by rw [FRAC_ONE_eq]; norm_num)]
  unfold resampleCore
  rw [if_neg (by simp)]
  rw [init_frac_pos, init_has_prev, init_prev_frame]
  rw [resampleLoop_cons_boot, resampleLoop_shift]
  rw [resampleLoop_passthrough rest f (hok f (by simp)) (fun g hg => hok g (by simp [hg]))]
  refine ⟨_, rfl, ?_, ?_, ?_⟩
  · simp [shiftLS]
    omega
  · simp [shiftLS]
  · simp [shiftLS]

/-- C3 witness: three concrete in-range frames through a 44100 to 44100
passthrough. -/
theorem C3_passthrough_identity_witness :
    ∃ o, AudioResampler_resample (AudioResampler_init 44100 44100) none
        [⟨1, 2⟩, ⟨3, 4⟩, ⟨5, 6⟩] 1 = some o ∧
      o.result.frames_consumed = 3 ∧
      o.result.frames_written = 3 - 1 ∧
      o.outs = [⟨1, 2⟩, ⟨3, 4⟩] := by
  obtain ⟨o, ho, hc, hw, hos⟩ := C3_passthrough_identity 44100 (by norm_num) (by norm_num)
    [⟨1, 2⟩, ⟨3, 4⟩, ⟨5, 6⟩] (by simp) (by decide)
  exact ⟨o, ho, hc, hw, by rw [hos]; rfl⟩

/-! ## C8: rate-correctness scenarios -/

theorem stepOK_60211 : StepOK 60211 := by
  constructor
  · norm_num
  · rw [FRAC_ONE_eq]; norm_num

theorem stepOK_71331 : StepOK 71331 := by
  constructor
  · norm_num
  · rw [FRAC_ONE_eq]; norm_num

theorem flatten_batches_44100 :
    (List.replicate 44 (List.replicate 1000 (⟨0, 0⟩ : SND_Frame)) ++
      [List.replicate 100 (⟨0, 0⟩ : SND_Frame)]).flatten.length = 44100 := by
  rw [List.length_flatten, List.map_append, List.map_replicate]
  simp only [List.map_cons, List.map_nil, List.length_replicate]
  rw [List.sum_append, List.sum_replicate, smul_eq_mul]
  norm_num

theorem flatten_batches_48000 :
    (List.replicate 48 (List.replicate 1000 (⟨0, 0⟩ : SND_Frame))).flatten.length = 48000 := by
  rw [List.length_flatten, List.map_replicate, List.length_replicate,
    List.sum_replicate, smul_eq_mul]

/-- C8 (amended): Scenario A as stated — any batching of 44100 frames at
`Rin = 44100, Rout = 48000`, `speed_adjust = 1` consumes all 44100 frames
and writes exactly 48000 (well within the claimed ±10).  Scenario B with the
stated 44100 input frames is false (see the counterexample); it holds for
one second of input at `Rin`, i.e. 48000 frames, writing exactly 44100. -/
theorem C8_rate_scenarios (chunksA chunksB : List (List SND_Frame))
    (hA : chunksA.flatten.length = 44100) (hB : chunksB.flatten.length = 48000) :
    (resampleChunks 1 (AudioResampler_init 44100 48000) chunksA).map
        (fun t => (t.1, t.2.1)) = some (48000, 44100) ∧
    (resampleChunks 1 (AudioResampler_init 48000 44100) chunksB).map
        (fun t => (t.1, t.2.1)) = some (44100, 48000) := by
  constructor
  · rw [resampleChunks_eq_flatten]
    obtain ⟨o, ho, hc, hw⟩ := resample_fresh_counts (AudioResampler_init 44100 48000)
      chunksA.flatten 1 (init_has_prev _ _) (init_frac_pos _ _)
      (by rw [init_44100_48000_frac_step, adjustedStep_one 60211 (by norm_num)]
          exact stepOK_60211)
      (by intro hnil; rw [hnil] at hA; simp at hA)
    have hw' : o.result.frames_written = 48000 := by
      rw [hw, init_44100_48000_frac_step, adjustedStep_one 60211 (by norm_num), hA, FRAC_ONE_eq]
    have hc' : o.result.frames_consumed = 44100 := by rw [hc, hA]
    rw [ho]
    simp [hw', hc']
  · rw [resampleChunks_eq_flatten]
    obtain ⟨o, ho, hc, hw⟩ := resample_fresh_counts (AudioResampler_init 48000 44100)
      chunksB.flatten 1 (init_has_prev _ _) (init_frac_pos _ _)
      (by rw [init_48000_44100_frac_step, adjustedStep_one 71331 (by norm_num)]
          exact stepOK_71331)
      (by intro hnil; rw [hnil] at hB; simp at hB)
    have hw' : o.result.frames_written = 44100 := by
      rw [hw, init_48000_44100_frac_step, adjustedStep_one 71331 (by norm_num), hB, FRAC_ONE_eq]
    have hc' : o.result.frames_consumed = 48000 := by rw [hc, hB]
    rw [ho]
    simp [hw', hc']

/-- C8 witness: the concrete batch pattern of the spec (batches of 1000). -/
theorem C8_rate_scenarios_witness :
    (resampleChunks 1 (AudioResampler_init 44100 48000)
        (List.replicate 44 (List.replicate 1000 (⟨0, 0⟩ : SND_Frame)) ++
          [List.replicate 100 (⟨0, 0⟩ : SND_Frame)])).map
        (fun t => (t.1, t.2.1)) = some (48000, 44100) ∧
    (resampleChunks 1 (AudioResampler_init 48000 44100)
        (List.replicate 48 (List.replicate 1000 (⟨0, 0⟩ : SND_Frame)))).map
        (fun t => (t.1, t.2.1)) = some (44100, 48000) :=
  C8_rate_scenarios _ _ flatten_batches_44100 flatten_batches_48000

/-- C8 counterexample: Scenario B exactly as claimed — 44100 input frames
in batches of 1000 at `Rin = 48000, Rout = 44100` — writes 40517 frames,
not within ±10 of 44100. -/
theorem C8_counterexample :
    (resampleChunks 1 (AudioResampler_init 48000 44100)
        (List.replicate 44 (List.replicate 1000 (⟨0, 0⟩ : SND_Frame)) ++
          [List.replicate 100 (⟨0, 0⟩ : SND_Frame)])).map (fun t => t.1) = some 40517 ∧
    ¬ (44100 - 10 ≤ 40517 ∧ 40517 ≤ 44100 + 10) := by
  constructor
  · rw [resampleChunks_eq_flatten]
    obtain ⟨o, ho, hc, hw⟩ := resample_fresh_counts (AudioResampler_init 48000 44100)
      (List.replicate 44 (List.replicate 1000 (⟨0, 0⟩ : SND_Frame)) ++
        [List.replicate 100 (⟨0, 0⟩ : SND_Frame)]).flatten 1
      (init_has_prev _ _) (init_frac_pos _ _)
      (by rw [init_48000_44100_frac_step, adjustedStep_one 71331 (by norm_num)]
          exact stepOK_71331)
      (by intro hnil
          have := flatten_batches_44100
          rw [hnil] at this
          simp at this)
    have hw' : o.result.frames_written = 40517 := by
      rw [hw, init_48000_44100_frac_step, adjustedStep_one 71331 (by norm_num),
        flatten_batches_44100, FRAC_ONE_eq]
    rw [ho]
    simp [hw']
  · norm_num

/-! ## C9: monotone speed effect -/

/-- The clamped adjusted step is monotone in the speed adjustment (as long
as the uint32 cast of the raw product does not wrap for the larger ratio). -/
theorem adjustedStep_mono (fs : ℕ) {r₁ r₂ : ℚ} (h0 : 0 ≤ r₁) (h12 : r₁ ≤ r₂)
    (hbig : (fs : ℚ) * r₂ < 2 ^ 32) : adjustedStep fs r₁ ≤ adjustedStep fs r₂ := by
  rw [adjustedStep_eq_min_max, adjustedStep_eq_min_max]
  have hmul : (fs : ℚ) * r₁ ≤ (fs : ℚ) * r₂ :=
    mul_le_mul_of_nonneg_left h12 (by positivity)
  have hf : ⌊(fs : ℚ) * r₁⌋ ≤ ⌊(fs : ℚ) * r₂⌋ := Int.floor_le_floor hmul
  have h2 : ⌊(fs : ℚ) * r₂⌋ < 2 ^ 32 := by
    have hle := Int.floor_le ((fs : ℚ) * r₂)
    have hq : ((⌊(fs : ℚ) * r₂⌋ : ℚ)) < 2 ^ 32 := lt_of_le_of_lt hle hbig
    exact_mod_cast hq
  have e2 : Int.toNat ⌊(fs : ℚ) * r₂⌋ % 2 ^ 32 = Int.toNat ⌊(fs : ℚ) * r₂⌋ :=
    Nat.mod_eq_of_lt (by omega)
  have e1 : Int.toNat ⌊(fs : ℚ) * r₁⌋ % 2 ^ 32 = Int.toNat ⌊(fs : ℚ) * r₁⌋ :=
    Nat.mod_eq_of_lt (by omega)
  rw [e1, e2]
  have ht : Int.toNat ⌊(fs : ℚ) * r₁⌋ ≤ Int.toNat ⌊(fs : ℚ) * r₂⌋ := by omega
  omega

/-- C9 (amended): for the same fresh resampler and input, a speed
adjustment above 1 writes at most as many frames as 1, and one below 1
writes at least as many — monotone, but not strictly (see the
counterexample: nearby adjustments can write equally many frames). -/
theorem C9_monotone_speed (rin rout : ℤ) (frames : List SND_Frame) (ra : ℚ)
    (hne : frames ≠ [])
    (hs1 : StepOK (adjustedStep (AudioResampler_init rin rout).frac_step 1))
    (hsr : StepOK (adjustedStep (AudioResampler_init rin rout).frac_step ra))
    (hbig : ((AudioResampler_init rin rout).frac_step : ℚ) * ra < 2 ^ 32)
    (hbig1 : ((AudioResampler_init rin rout).frac_step : ℚ) * 1 < 2 ^ 32) :
    ∃ o o₁,
      AudioResampler_resample (AudioResampler_init rin rout) none frames ra = some o ∧
      AudioResampler_resample (AudioResampler_init rin rout) none frames 1 = some o₁ ∧
      (1 ≤ ra → o.result.frames_written ≤ o₁.result.frames_written) ∧
      (0 < ra → ra ≤ 1 → o₁.result.frames_written ≤ o.result.frames_written) := by
  obtain ⟨o, ho, hoc, how⟩ := resample_fresh_counts (AudioResampler_init rin rout) frames ra
    (init_has_prev _ _) (init_frac_pos _ _) hsr hne
  obtain ⟨o₁, ho₁, hoc₁, how₁⟩ := resample_fresh_counts (AudioResampler_init rin rout) frames 1
    (init_has_prev _ _) (init_frac_pos _ _) hs1 hne
  refine ⟨o, o₁, ho, ho₁, ?_, ?_⟩
  · intro hra
    rw [how, how₁]
    exact ceil_div_antitone hs1.1
      (adjustedStep_mono _ (by norm_num) hra hbig)
  · intro hra0 hra1
    rw [how, how₁]
    exact ceil_div_antitone hsr.1
      (adjustedStep_mono _ (le_of_lt hra0) hra1 hbig1)

/-- C9 witness: the amended monotonicity at concrete rates/frames and a
concrete adjustment above 1. -/
theorem C9_monotone_speed_witness :
    ∃ o o₁,
      AudioResampler_resample (AudioResampler_init 44100 48000) none
        [⟨0, 0⟩, ⟨0, 0⟩] (5003 / 5000) = some o ∧
      AudioResampler_resample (AudioResampler_init 44100 48000) none
        [⟨0, 0⟩, ⟨0, 0⟩] 1 = some o₁ ∧
      ((1 : ℚ) ≤ 5003 / 5000 → o.result.frames_written ≤ o₁.result.frames_written) ∧
      ((0 : ℚ) < 5003 / 5000 → (5003 / 5000 : ℚ) ≤ 1 →
        o₁.result.frames_written ≤ o.result.frames_written) :=
  C9_monotone_speed 44100 48000 [⟨0, 0⟩, ⟨0, 0⟩] (5003 / 5000) (by simp)
    (by rw [init_44100_48000_frac_step, adjustedStep_one 60211 (by norm_num)]
        exact stepOK_60211)
    (by rw [init_44100_48000_frac_step, adjustedStep_60211_up]
        constructor
        · norm_num
        · rw [FRAC_ONE_eq]; norm_num)
    (by rw [init_44100_48000_frac_step]; push_cast; norm_num)
    (by rw [init_44100_48000_frac_step]; push_cast; norm_num)

/-! ## C4: full-buffer resume -/

/-- A buffered inner-loop run that exits normally still carries a buffer. -/
theorem spin_done_buf_some (step : ℕ) (pr cu : SND_Frame) :
    ∀ fuel p rb q b os, spin step pr cu fuel p (some rb) = some (SpinExit.done q b os) →
      ∃ rb', b = some rb' := by
  intro fuel
  induction fuel with
  | zero => intro p rb q b os h; rw [spin_zero] at h; cases h
  | succ n ih =>
    intro p rb q b os h
    rw [spin] at h
    by_cases hp : p < FRAC_ONE
    · rw [if_pos hp] at h
      by_cases hfull : bufferFullCheck (some rb) = true
      · rw [if_pos hfull] at h; cases h
      · rw [if_neg hfull] at h
        cases hspin : spin step pr cu n ((p + step) % 2 ^ 32)
            (bufWrite (some rb) (lerpFrame pr cu p)) with
        | none => rw [hspin] at h; cases h
        | some e' =>
          cases e' with
          | done qq bb oss =>
            rw [hspin] at h
            cases h
            exact ih _ _ _ _ _ (by simpa [bufWrite] using hspin)
          | full qq bb oss => rw [hspin] at h; cases h
    · rw [if_neg hp] at h
      cases h
      exact ⟨rb, rfl⟩

/-- Dropping the buffer does not change a normally-exiting inner-loop run:
the phases — hence the emitted frames and the exit phase — do not depend on
the buffer. -/
theorem spin_done_drop_buf (step : ℕ) (pr cu : SND_Frame) :
    ∀ fuel p rb q b os, spin step pr cu fuel p (some rb) = some (SpinExit.done q b os) →
      spin step pr cu fuel p none = some (SpinExit.done q none os) := by
  intro fuel
  induction fuel with
  | zero => intro p rb q b os h; rw [spin_zero] at h; cases h
  | succ n ih =>
    intro p rb q b os h
    rw [spin] at h
    rw [spin_none_succ]
    by_cases hp : p < FRAC_ONE
    · rw [if_pos hp] at h ⊢
      by_cases hfull : bufferFullCheck (some rb) = true
      · rw [if_pos hfull] at h; cases h
      · rw [if_neg hfull] at h
        cases hspin : spin step pr cu n ((p + step) % 2 ^ 32)
            (bufWrite (some rb) (lerpFrame pr cu p)) with
        | none => rw [hspin] at h; cases h
        | some e' =>
          cases e' with
          | done qq bb oss =>
            rw [hspin] at h
            cases h
            rw [ih _ _ _ _ _ (by simpa [bufWrite] using hspin)]
          | full qq bb oss => rw [hspin] at h; cases h
    · rw [if_neg hp] at h ⊢
      cases h
      rfl

/-- Resuming after a buffer-full stop: the frames emitted before the stop,
followed by the frames a dry run emits from the saved phase, are exactly
the frames a dry run emits from the original phase — and both runs land on
the same final phase. -/
theorem spin_full_resume (step : ℕ) (pr cu : SND_Frame) (hs : StepOK step) :
    ∀ fuel p rb q b os₁, 1 ≤ fuel → FRAC_ONE < p + fuel →
      spin step pr cu fuel p (some rb) = some (SpinExit.full q b os₁) →
      ∃ pf os₂, spin step pr cu (FRAC_ONE + 1) q none = some (SpinExit.done pf none os₂) ∧
        spin step pr cu fuel p none = some (SpinExit.done pf none (os₁ ++ os₂)) := by
  intro fuel
  induction fuel with
  | zero => intro p rb q b os₁ h1 _ _; omega
  | succ n ih =>
    intro p rb q b os₁ _ hfuel h
    rw [spin] at h
    by_cases hp : p < FRAC_ONE
    · rw [if_pos hp] at h
      by_cases hfull : bufferFullCheck (some rb) = true
      · rw [if_pos hfull] at h
        cases h
        obtain ⟨pf, os₂, h2⟩ := spin_none_some step pr cu hs (n + 1) p (by omega) hfuel
        refine ⟨pf, os₂, ?_, by simpa using h2⟩
        rw [spin_fuel_irrel step pr cu hs (FRAC_ONE + 1) (n + 1) p (by omega)
          (by rw [FRAC_ONE_eq]; omega) (by omega) hfuel]
        exact h2
      · rw [if_neg hfull] at h
        cases hspin : spin step pr cu n ((p + step) % 2 ^ 32)
            (bufWrite (some rb) (lerpFrame pr cu p)) with
        | none => rw [hspin] at h; cases h
        | some e' =>
          cases e' with
          | done qq bb oss => rw [hspin] at h; cases h
          | full qq bb oss =>
            rw [hspin] at h
            cases h
            have hw := step_no_wrap hs hp
            rw [hw] at hspin
            have hstep1 := hs.1
            have hn1 : 1 ≤ n := by omega
            have hn2 : FRAC_ONE < p + step + n := by omega
            obtain ⟨pf, os₂, hA, hB⟩ := ih (p + step) (ringWrite rb (lerpFrame pr cu p))
              _ _ _ hn1 (by omega) (by simpa [bufWrite] using hspin)
            refine ⟨pf, os₂, hA, ?_⟩
            rw [spin_none_succ, if_pos hp, hw, hB]
            simp [List.cons_append]
    · rw [if_neg hp] at h
      cases h

/-- Loop-level resume: a buffered run that stopped early (buffer full),
followed by a dry-run on the unconsumed suffix from the saved state, equals
the unbounded reference run on the whole input: concatenated outputs, added
counters, identical final state — no input frame skipped or duplicated. -/
theorem resampleLoop_resume (step : ℕ) (hs : StepOK step) :
    ∀ (frames : List SND_Frame) (p : ℕ) (pr : SND_Frame) (hp : Bool)
      (rb : AudioRingBuffer) (t₁ t₂ : LoopState),
      resampleLoop step frames ⟨p, pr, hp, some rb, 0, 0, []⟩ = some t₁ →
      t₁.consumed < frames.length →
      resampleLoop step (frames.drop t₁.consumed)
        ⟨t₁.frac_pos, t₁.prev, t₁.has_prev, none, 0, 0, []⟩ = some t₂ →
      ∃ tU, resampleLoop step frames ⟨p, pr, hp, none, 0, 0, []⟩ = some tU ∧
        tU.outs = t₁.outs ++ t₂.outs ∧
        tU.written = t₁.written + t₂.written ∧
        tU.consumed = t₁.consumed + t₂.consumed ∧
        tU.frac_pos = t₂.frac_pos ∧ tU.prev = t₂.prev ∧ tU.has_prev = t₂.has_prev := by
  intro frames
  induction frames with
  | nil =>
    intro p pr hp rb t₁ t₂ h1 hc _
    rw [resampleLoop_nil] at h1
    cases h1
    simp at hc
  | cons curr rest ih =>
    intro p pr hp rb t₁ t₂ h1 hc h2
    cases hp with
    | false =>
      rw [resampleLoop_cons_boot, resampleLoop_shift, Option.map_eq_some'] at h1
      obtain ⟨t₁', h1', rfl⟩ := h1
      have hc' : t₁'.consumed < rest.length := by
        simp only [shiftLS, List.length_cons] at hc
        omega
      simp only [shiftLS] at h2
      rw [show 1 + t₁'.consumed = t₁'.consumed + 1 by omega, List.drop_succ_cons] at h2
      obtain ⟨tU, hU, ho, hw, hcc, hf1, hf2, hf3⟩ := ih p curr true rb t₁' t₂ h1' hc' h2
      rw [resampleLoop_cons_boot, resampleLoop_shift, hU]
      refine ⟨_, rfl, ?_, ?_, ?_, ?_, ?_, ?_⟩ <;>
        simp only [shiftLS, List.nil_append, ho, hw, hcc, hf1, hf2, hf3] <;> omega
    | true =>
      rw [resampleLoop_cons_spin] at h1
      cases hspin : spin step pr curr (FRAC_ONE + 1) p (some rb) with
      | none => rw [hspin] at h1; cases h1
      | some e =>
        cases e with
        | full q b os =>
          rw [hspin] at h1
          cases h1
          dsimp only at h2 hc ⊢
          rw [List.drop_zero, resampleLoop_cons_spin] at h2
          obtain ⟨pf, os₂, hA, hB⟩ := spin_full_resume step pr curr hs (FRAC_ONE + 1) p rb
            q b os (by omega) (by rw [FRAC_ONE_eq]; omega) hspin
          rw [hA] at h2
          rw [resampleLoop_cons_spin, hB]
          dsimp only at h2 ⊢
          rw [resampleLoop_shift, Option.map_eq_some'] at h2
          obtain ⟨tc, htc, rfl⟩ := h2
          rw [resampleLoop_shift, htc]
          refine ⟨_, rfl, ?_, ?_, ?_, ?_, ?_, ?_⟩ <;>
            simp only [shiftLS, List.nil_append, List.append_assoc, List.length_append,
              Nat.zero_add] <;> omega
        | done q b os =>
          rw [hspin] at h1
          dsimp only at h1
          obtain ⟨rb', rfl⟩ := spin_done_buf_some step pr curr _ _ _ _ _ _ hspin
          rw [resampleLoop_shift, Option.map_eq_some'] at h1
          obtain ⟨t₁', h1', rfl⟩ := h1
          have hc' : t₁'.consumed < rest.length := by
            simp only [shiftLS, List.length_cons] at hc
            omega
          simp only [shiftLS] at h2
          rw [show 1 + t₁'.consumed = t₁'.consumed + 1 by omega, List.drop_succ_cons] at h2
          obtain ⟨tU, hU, ho, hw, hcc, hf1, hf2, hf3⟩ :=
            ih (q - FRAC_ONE) curr true rb' t₁' t₂ h1' hc' h2
          rw [resampleLoop_cons_spin, spin_done_drop_buf step pr curr _ _ _ _ _ _ hspin]
          dsimp only
          rw [resampleLoop_shift, hU]
          refine ⟨_, rfl, ?_, ?_, ?_, ?_, ?_, ?_⟩ <;>
            simp only [shiftLS, List.nil_append, List.append_assoc, ho, hw, hcc,
              hf1, hf2, hf3] <;> omega

/-- C4: full-buffer resume.  If a buffered resample call stops early
because the ring is full, the saved state (`frac_pos`, `prev_frame`,
`has_prev`) is exactly the stopping state, and resubmitting the unconsumed
suffix (after `frames_consumed`) to an unbounded (dry) call makes the
concatenated outputs, the summed counters, and the final resampler state
equal those of a single unbounded reference run over the whole input — no
input frame is skipped or processed twice. -/
theorem C4_full_buffer_resume (r : AudioResampler) (rb : AudioRingBuffer)
    (frames : List SND_Frame) (ra : ℚ) (hs : StepOK (adjustedStep r.frac_step ra))
    (o₁ o₂ : ResampleOut)
    (h₁ : AudioResampler_resample r (some rb) frames ra = some o₁)
    (hstop : o₁.result.frames_consumed < frames.length)
    (h₂ : AudioResampler_resample o₁.resampler none
            (frames.drop o₁.result.frames_consumed) ra = some o₂) :
    ∃ oU, AudioResampler_resample r none frames ra = some oU ∧
      oU.outs = o₁.outs ++ o₂.outs ∧
      oU.result.frames_written = o₁.result.frames_written + o₂.result.frames_written ∧
      oU.result.frames_consumed = o₁.result.frames_consumed + o₂.result.frames_consumed ∧
      oU.resampler = o₂.resampler := by
  by_cases hnil : frames.length = 0
  · rw [hnil] at hstop; omega
  · unfold AudioResampler_resample resampleCore at h₁
    rw [if_neg hnil] at h₁
    cases hloop₁ : resampleLoop (adjustedStep r.frac_step ra) frames
        ⟨r.frac_pos, r.prev_frame, r.has_prev, some rb, 0, 0, []⟩ with
    | none => rw [hloop₁] at h₁; cases h₁
    | some t₁ =>
      rw [hloop₁] at h₁
      cases h₁
      dsimp only at hstop h₂ ⊢
      unfold AudioResampler_resample resampleCore at h₂
      rw [if_neg (by rw [List.length_drop]; omega)] at h₂
      dsimp only at h₂
      cases hloop₂ : resampleLoop (adjustedStep r.frac_step ra) (frames.drop t₁.consumed)
          ⟨t₁.frac_pos, t₁.prev, t₁.has_prev, none, 0, 0, []⟩ with
      | none => rw [hloop₂] at h₂; cases h₂
      | some t₂ =>
        rw [hloop₂] at h₂
        cases h₂
        obtain ⟨tU, hU, ho, hw, hcc, hf1, hf2, hf3⟩ :=
          resampleLoop_resume (adjustedStep r.frac_step ra) hs frames r.frac_pos
            r.prev_frame r.has_prev rb t₁ t₂ hloop₁ hstop hloop₂
        refine ⟨⟨⟨tU.written, tU.consumed⟩,
          { r with frac_pos := tU.frac_pos, prev_frame := tU.prev, has_prev := tU.has_prev },
          tU.buf, tU.outs⟩, ?_, ho, hw, hcc, ?_⟩
        · unfold AudioResampler_resample resampleCore
          rw [if_neg hnil, hU]
        · dsimp only
          rw [hf1, hf2, hf3]

/-- C4 witness: a capacity-3 ring fills after two writes; the call stops
with 3 of 4 frames consumed, and resubmitting the suffix reproduces the
unbounded reference run. -/
theorem C4_full_buffer_resume_witness :
    ∃ oU, AudioResampler_resample (AudioResampler_init 44100 44100) none
        [⟨1, 1⟩, ⟨2, 2⟩, ⟨3, 3⟩, ⟨4, 4⟩] 1 = some oU ∧
      oU.outs =
        (⟨⟨2, 3⟩, ⟨44100, 44100, 0, 65536, ⟨3, 3⟩, true⟩,
          some ⟨[⟨1, 1⟩, ⟨2, 2⟩, ⟨0, 0⟩], 3, 2, 0⟩, [⟨1, 1⟩, ⟨2, 2⟩]⟩ : ResampleOut).outs ++
        (⟨⟨1, 1⟩, ⟨44100, 44100, 0, 65536, ⟨4, 4⟩, true⟩, none, [⟨3, 3⟩]⟩ : ResampleOut).outs ∧
      oU.result.frames_written =
        (⟨⟨2, 3⟩, ⟨44100, 44100, 0, 65536, ⟨3, 3⟩, true⟩,
          some ⟨[⟨1, 1⟩, ⟨2, 2⟩, ⟨0, 0⟩], 3, 2, 0⟩,
          [⟨1, 1⟩, ⟨2, 2⟩]⟩ : ResampleOut).result.frames_written +
        (⟨⟨1, 1⟩, ⟨44100, 44100, 0, 65536, ⟨4, 4⟩, true⟩, none,
          [⟨3, 3⟩]⟩ : ResampleOut).result.frames_written ∧
      oU.result.frames_consumed =
        (⟨⟨2, 3⟩, ⟨44100, 44100, 0, 65536, ⟨3, 3⟩, true⟩,
          some ⟨[⟨1, 1⟩, ⟨2, 2⟩, ⟨0, 0⟩], 3, 2, 0⟩,
          [⟨1, 1⟩, ⟨2, 2⟩]⟩ : ResampleOut).result.frames_consumed +
        (⟨⟨1, 1⟩, ⟨44100, 44100, 0, 65536, ⟨4, 4⟩, true⟩, none,
          [⟨3, 3⟩]⟩ : ResampleOut).result.frames_consumed ∧
      oU.resampler =
        (⟨⟨1, 1⟩, ⟨44100, 44100, 0, 65536, ⟨4, 4⟩, true⟩, none,
          [⟨3, 3⟩]⟩ : ResampleOut).resampler := by
  have hfs : (AudioResampler_init 44100 44100).frac_step = 65536 := by decide
  have hone : adjustedStep 65536 1 = 65536 := adjustedStep_one 65536 (by norm_num)
  have hs : StepOK (adjustedStep (AudioResampler_init 44100 44100).frac_step 1) := by
    rw [hfs, hone]
    exact ⟨by norm_num, by rw [FRAC_ONE_eq]; norm_num⟩
  have h₁ : AudioResampler_resample (AudioResampler_init 44100 44100)
      (some ⟨[⟨0, 0⟩, ⟨0, 0⟩, ⟨0, 0⟩], 3, 0, 0⟩) [⟨1, 1⟩, ⟨2, 2⟩, ⟨3, 3⟩, ⟨4, 4⟩] 1 =
      some ⟨⟨2, 3⟩, ⟨44100, 44100, 0, 65536, ⟨3, 3⟩, true⟩,
        some ⟨[⟨1, 1⟩, ⟨2, 2⟩, ⟨0, 0⟩], 3, 2, 0⟩, [⟨1, 1⟩, ⟨2, 2⟩]⟩ := by
    unfold AudioResampler_resample
    rw [hfs, hone]
    decide
  have h₂ : AudioResampler_resample
      (⟨44100, 44100, 0, 65536, ⟨3, 3⟩, true⟩ : AudioResampler) none [⟨4, 4⟩] 1 =
      some ⟨⟨1, 1⟩, ⟨44100, 44100, 0, 65536, ⟨4, 4⟩, true⟩, none, [⟨3, 3⟩]⟩ := by
    unfold AudioResampler_resample
    dsimp only
    rw [hone]
    decide
  exact C4_full_buffer_resume (AudioResampler_init 44100 44100)
    ⟨[⟨0, 0⟩, ⟨0, 0⟩, ⟨0, 0⟩], 3, 0, 0⟩ [⟨1, 1⟩, ⟨2, 2⟩, ⟨3, 3⟩, ⟨4, 4⟩] 1 hs _ _ h₁
    (by decide) h₂

/-! ## C7: underrun behavior of the audio callback -/

theorem mod_small_cases {a n : ℕ} (hn : 0 < n) (h : a < 2 * n) :
    a % n = if a < n then a else a - n := by
  split_ifs with hlt
  · exact Nat.mod_eq_of_lt hlt
  · rw [Nat.mod_eq_sub_mod (by omega)]
    exact Nat.mod_eq_of_lt (by omega)

theorem ringPres_refl (rb : AudioRingBuffer) (hw : rb.write_pos < rb.capacity) :
    RingPres rb rb :=
  ⟨rfl, rfl, rfl, hw, rfl⟩

theorem ringPres_trans {rb₁ rb₂ rb₃ : AudioRingBuffer} (h12 : RingPres rb₁ rb₂)
    (h23 : RingPres rb₂ rb₃) : RingPres rb₁ rb₃ := by
  obtain ⟨a1, a2, a3, a4, a5⟩ := h12
  obtain ⟨b1, b2, b3, b4, b5⟩ := h23
  refine ⟨by omega, by rw [b2, a2], by omega, by omega, ?_⟩
  rw [a2, a1] at b5
  rw [← a5, ← b5]

/-- A single guarded ring write never touches the protected slot. -/
theorem ringWrite_pres (rb : AudioRingBuffer) (f : SND_Frame)
    (hw : rb.write_pos < rb.capacity) (hc : 0 < rb.capacity)
    (hfull : ringNext rb ≠ rb.read_pos) (hr : rb.read_pos < rb.capacity) :
    RingPres rb (ringWrite rb f) := by
  unfold ringWrite
  refine ⟨rfl, rfl, by simp, ?_, ?_⟩
  · dsimp only
    split_ifs <;> omega
  · dsimp only
    have hne : rb.write_pos ≠ (rb.read_pos + rb.capacity - 1) % rb.capacity := by
      intro he
      apply hfull
      unfold ringNext
      rw [mod_small_cases hc (by omega)] at he
      split_ifs at he with h1 <;> split_ifs with h2 <;> omega
    rw [List.getD_eq_getElem?_getD, List.getD_eq_getElem?_getD,
      List.getElem?_set_ne hne]

/-- Ring preservation through one inner-loop run. -/
theorem spin_ring_pres (step : ℕ) (pr cu : SND_Frame) :
    ∀ fuel p rb e, spin step pr cu fuel p (some rb) = some e →
      rb.write_pos < rb.capacity → 0 < rb.capacity → rb.read_pos < rb.capacity →
      ∃ q b os rb', (e = SpinExit.done q b os ∨ e = SpinExit.full q b os) ∧
        b = some rb' ∧ RingPres rb rb' := by
  intro fuel
  induction fuel with
  | zero => intro p rb e h; rw [spin_zero] at h; cases h
  | succ n ih =>
    intro p rb e h hw hc hr
    rw [spin] at h
    by_cases hp : p < FRAC_ONE
    · rw [if_pos hp] at h
      by_cases hfull : bufferFullCheck (some rb) = true
      · rw [if_pos hfull] at h
        cases h
        exact ⟨p, some rb, [], rb, Or.inr rfl, rfl, ringPres_refl rb hw⟩
      · rw [if_neg hfull] at h
        have hnext : ringNext rb ≠ rb.read_pos := by
          intro he
          apply hfull
          simp [bufferFullCheck, he]
        have hpres := ringWrite_pres rb (lerpFrame pr cu p) hw hc hnext hr
        obtain ⟨c1, c2, c3, c4, c5⟩ := hpres
        cases hspin : spin step pr cu n ((p + step) % 2 ^ 32)
            (bufWrite (some rb) (lerpFrame pr cu p)) with
        | none => rw [hspin] at h; cases h
        | some e' =>
          obtain ⟨q, b, os, rb', hor, hb, hpres'⟩ :=
            ih ((p + step) % 2 ^ 32) (ringWrite rb (lerpFrame pr cu p)) e'
              (by simpa [bufWrite] using hspin) (by omega) (by omega) (by omega)
          rw [hspin] at h
          rcases hor with rfl | rfl
          · cases h
            exact ⟨q, b, lerpFrame pr cu p :: os, rb', Or.inl rfl, hb,
              ringPres_trans ⟨c1, c2, c3, c4, c5⟩ hpres'⟩
          · cases h
            exact ⟨q, b, lerpFrame pr cu p :: os, rb', Or.inr rfl, hb,
              ringPres_trans ⟨c1, c2, c3, c4, c5⟩ hpres'⟩
    · rw [if_neg hp] at h
      cases h
      exact ⟨p, some rb, [], rb, Or.inl rfl, rfl, ringPres_refl rb hw⟩

/-- Ring preservation through the outer loop. -/
theorem resampleLoop_ring_pres (step : ℕ) :
    ∀ (frames : List SND_Frame) (p : ℕ) (pr : SND_Frame) (hp : Bool) (w c : ℕ)
      (o : List SND_Frame) (rb : AudioRingBuffer) (t : LoopState),
      resampleLoop step frames ⟨p, pr, hp, some rb, w, c, o⟩ = some t →
      rb.write_pos < rb.capacity → 0 < rb.capacity → rb.read_pos < rb.capacity →
      ∃ rb', t.buf = some rb' ∧ RingPres rb rb' := by
  intro frames
  induction frames with
  | nil =>
    intro p pr hp w c o rb t h hw hc hr
    rw [resampleLoop_nil] at h
    cases h
    exact ⟨rb, rfl, ringPres_refl rb hw⟩
  | cons curr rest ih =>
    intro p pr hp w c o rb t h hw hc hr
    cases hp with
    | false =>
      rw [resampleLoop_cons_boot] at h
      exact ih p curr true w (c + 1) o rb t h hw hc hr
    | true =>
      rw [resampleLoop_cons_spin] at h
      cases hspin : spin step pr curr (FRAC_ONE + 1) p (some rb) with
      | none => rw [hspin] at h; cases h
      | some e =>
        obtain ⟨q, b, os, rb', hor, rfl, hpres⟩ :=
          spin_ring_pres step pr curr (FRAC_ONE + 1) p rb e hspin hw hc hr
        rcases hor with rfl | rfl
        · rw [hspin] at h
          dsimp only at h
          obtain ⟨rb'', hb'', hpres''⟩ :=
            ih (q - FRAC_ONE) curr true (w + os.length) (c + 1) (o ++ os) rb' t h
              (by obtain ⟨c1, _, _, c4, _⟩ := hpres; omega)
              (by obtain ⟨c1, _, _, _, _⟩ := hpres; omega)
              (by obtain ⟨c1, c2, _, _, _⟩ := hpres; omega)
          exact ⟨rb'', hb'', ringPres_trans hpres hpres''⟩
        · rw [hspin] at h
          cases h
          exact ⟨rb', rfl, hpres⟩

/-- Ring preservation through one whole resample call. -/
theorem resample_ring_pres (r : AudioResampler) (rb : AudioRingBuffer)
    (frames : List SND_Frame) (ra : ℚ) (o : ResampleOut)
    (h : AudioResampler_resample r (some rb) frames ra = some o)
    (hw : rb.write_pos < rb.capacity) (hc : 0 < rb.capacity)
    (hr : rb.read_pos < rb.capacity) :
    ∃ rb', o.buffer = some rb' ∧ RingPres rb rb' := by
  unfold AudioResampler_resample resampleCore at h
  by_cases hl : frames.length = 0
  · rw [if_pos hl] at h
    cases h
    exact ⟨rb, rfl, ringPres_refl rb hw⟩
  · rw [if_neg hl] at h
    cases hloop : resampleLoop (adjustedStep r.frac_step ra) frames
        ⟨r.frac_pos, r.prev_frame, r.has_prev, some rb, 0, 0, []⟩ with
    | none => rw [hloop] at h; cases h
    | some t =>
      rw [hloop] at h
      cases h
      exact resampleLoop_ring_pres _ frames _ _ _ _ _ _ rb t hloop hw hc hr

theorem out_advance_eq {out cap : ℕ} (h : out < cap) :
    (if out + 1 ≥ cap then 0 else out + 1) = (out + 1) % cap := by
  split_ifs with h1
  · have he : out + 1 = cap := by omega
    rw [he, Nat.mod_self]
  · rw [Nat.mod_eq_of_lt (by omega)]

/-- Full characterization of the callback's drain loop: it emits
`min unread len` frames in read order, advances the read cursor by that
amount (mod capacity), leaves everything else untouched, and sets
`frame_filled` to the index of the last frame it read (if any). -/
theorem drainLoop_spec :
    ∀ (len : ℕ) (s : SndContext), SndInv s →
      (drainLoop len s).1 = (List.range (min (unreadCount s) len)).map
          (fun i => s.buffer.getD ((s.frame_out + i) % s.frame_count) ⟨0, 0⟩) ∧
      (drainLoop len s).2.buffer = s.buffer ∧
      (drainLoop len s).2.frame_count = s.frame_count ∧
      (drainLoop len s).2.frame_in = s.frame_in ∧
      (drainLoop len s).2.frame_out =
        (s.frame_out + min (unreadCount s) len) % s.frame_count ∧
      (drainLoop len s).2.frame_filled =
        (if min (unreadCount s) len = 0 then s.frame_filled
         else (((s.frame_out + min (unreadCount s) len - 1) % s.frame_count : ℕ) : ℤ)) := by
  intro len
  induction len with
  | zero =>
    intro s hinv
    obtain ⟨hc, hb, hin, hout, hfil⟩ := hinv
    refine ⟨by simp [drainLoop], rfl, rfl, rfl, ?_, by simp [drainLoop]⟩
    show s.frame_out = (s.frame_out + min (unreadCount s) 0) % s.frame_count
    rw [Nat.min_zero, Nat.add_zero, Nat.mod_eq_of_lt hout]
  | succ n ih =>
    intro s hinv
    obtain ⟨hc, hb, hin, hout, hfil⟩ := hinv
    rw [drainLoop]
    by_cases hne : s.frame_out ≠ s.frame_in
    · rw [if_pos hne]
      have hk1 : 1 ≤ unreadCount s := by
        unfold unreadCount
        split_ifs <;> omega
      set s₁ : SndContext :=
        { s with
          frame_filled := (s.frame_out : ℤ)
          frame_out := if s.frame_out + 1 ≥ s.frame_count then 0 else s.frame_out + 1 }
        with hs₁
      have hout₁ : s₁.frame_out = (s.frame_out + 1) % s.frame_count := out_advance_eq hout
      have hinv₁ : SndInv s₁ := by
        refine ⟨hc, hb, hin, ?_, ?_⟩
        · rw [hout₁]; exact Nat.mod_lt _ hc
        · show (s.frame_out : ℤ) =
            (((s₁.frame_out + s.frame_count - 1) % s.frame_count : ℕ) : ℤ)
          rw [hout₁]
          congr 1
          rw [show (s.frame_out + 1) % s.frame_count =
              if s.frame_out + 1 < s.frame_count then s.frame_out + 1
              else s.frame_out + 1 - s.frame_count from mod_small_cases hc (by omega)]
          split_ifs with h1
          · rw [mod_small_cases hc (by omega)]
            split_ifs <;> omega
          · rw [mod_small_cases hc (by omega)]
            split_ifs <;> omega
      have hk₁ : unreadCount s₁ = unreadCount s - 1 := by
        show unreadCount { s with
          frame_filled := (s.frame_out : ℤ)
          frame_out := if s.frame_out + 1 ≥ s.frame_count then 0 else s.frame_out + 1 } =
          unreadCount s - 1
        unfold unreadCount
        dsimp only
        split_ifs <;> omega
      obtain ⟨ih1, ih2, ih3, ih4, ih5, ih6⟩ := ih s₁ hinv₁
      have hm : min (unreadCount s) (n + 1) = min (unreadCount s₁) n + 1 := by
        rw [hk₁]; omega
      have hidx : ∀ i : ℕ, (s₁.frame_out + i) % s.frame_count =
          (s.frame_out + (i + 1)) % s.frame_count := by
        intro i
        rw [hout₁, Nat.mod_add_mod]
        congr 1
        omega
      refine ⟨?_, ?_, ?_, ?_, ?_, ?_⟩
      · show s.buffer.getD s.frame_out ⟨0, 0⟩ :: (drainLoop n s₁).1 = _
        rw [ih1, hm, List.range_succ_eq_map, List.map_cons, List.map_map]
        congr 1
        · simp [Nat.mod_eq_of_lt hout]
        · apply List.map_congr_left
          intro i _
          show s₁.buffer.getD ((s₁.frame_out + i) % s₁.frame_count) ⟨0, 0⟩ = _
          rw [show s₁.buffer = s.buffer from rfl, show s₁.frame_count = s.frame_count from rfl]
          rw [hidx i]
          rfl
      · rw [ih2]
      · rw [ih3]
      · rw [ih4]
      · rw [ih5, hm]
        rw [show s₁.frame_count = s.frame_count from rfl, hout₁, Nat.mod_add_mod]
        rw [show s.frame_out + 1 + min (unreadCount s₁) n =
            s.frame_out + (min (unreadCount s₁) n + 1) by omega]
      · rw [ih6, hm, if_neg (show ¬(min (unreadCount s₁) n + 1 = 0) by omega)]
        by_cases hz : min (unreadCount s₁) n = 0
        · rw [if_pos hz, hz]
          show (s.frame_out : ℤ) = _
          congr 1
          rw [Nat.mod_eq_of_lt (by omega)]
          omega
        · rw [if_neg hz]
          congr 1
          rw [show s₁.frame_count = s.frame_count from rfl, hout₁]
          rw [show (s.frame_out + 1) % s.frame_count + min (unreadCount s₁) n - 1 =
              (s.frame_out + 1) % s.frame_count + (min (unreadCount s₁) n - 1) by omega]
          rw [Nat.mod_add_mod]
          congr 1
          omega
    · rw [if_neg hne]
      push_neg at hne
      have hk0 : unreadCount s = 0 := by
        unfold unreadCount
        split_ifs <;> omega
      rw [hk0]
      refine ⟨by simp, rfl, rfl, rfl, ?_, by simp⟩
      show s.frame_out = _
      rw [Nat.min_eq_left (by omega), Nat.add_zero, Nat.mod_eq_of_lt hout]

theorem getD_replicate_zero (n i : ℕ) :
    (List.replicate n (⟨0, 0⟩ : SND_Frame)).getD i ⟨0, 0⟩ = ⟨0, 0⟩ := by
  rw [List.getD_eq_getElem?_getD, List.getElem?_replicate]
  split_ifs <;> rfl

theorem getLast?_range_map {α : Type} (g : ℕ → α) (m : ℕ) (h : 1 ≤ m) :
    ((List.range m).map g).getLast? = some (g (m - 1)) := by
  rw [List.getLast?_eq_getElem?]
  simp only [List.length_map, List.length_range]
  rw [List.getElem?_map, List.getElem?_range (by omega)]
  rfl

theorem audioCallback_snd (s : SndContext) (len : ℕ) (hc : 0 < s.frame_count) :
    (SND_audioCallback s len).2 = (drainLoop len s).2 := by
  unfold SND_audioCallback
  rw [if_neg (by omega)]

/-- Every reachable session state satisfies the structural invariant, and
the slot `frame_filled` aliases holds the last frame ever read (silence
before the first read). -/
theorem sndReach_inv {s : SndContext} {r : AudioResampler} {last : Option SND_Frame}
    (h : SndReach s r last) : SndInv s ∧ SndGhost s last := by
  induction h with
  | init n rin rout hn =>
    constructor
    · refine ⟨hn, by simp [SND_resizeBuffer], by simpa [SND_resizeBuffer] using hn,
        by simpa [SND_resizeBuffer] using hn, ?_⟩
      show ((n : ℤ) - 1) = (((0 + n - 1) % n : ℕ) : ℤ)
      rw [Nat.zero_add, Nat.mod_eq_of_lt (by omega)]
      omega
    · show (List.replicate n (⟨0, 0⟩ : SND_Frame)).getD ((0 + n - 1) % n) ⟨0, 0⟩ =
        (none : Option SND_Frame).getD ⟨0, 0⟩
      rw [getD_replicate_zero]
      rfl
  | produce s r last frames ra s' r' c hr hb ih =>
    obtain ⟨⟨hc, hbl, hin, hout, hfil⟩, hg⟩ := ih
    unfold SND_batchSamples at hb
    rw [if_neg (by omega)] at hb
    cases hres : AudioResampler_resample r
        (some ⟨s.buffer, s.frame_count, s.frame_in, s.frame_out⟩) frames ra with
    | none => rw [hres] at hb; cases hb
    | some o =>
      rw [hres] at hb
      dsimp only at hb
      obtain ⟨rb', hob, hpres⟩ := resample_ring_pres r
        ⟨s.buffer, s.frame_count, s.frame_in, s.frame_out⟩ frames ra o hres hin hc hout
      rw [hob] at hb
      dsimp only at hb
      cases hb
      obtain ⟨p1, p2, p3, p4, p5⟩ := hpres
      dsimp only at p1 p2 p3 p4 p5
      constructor
      · exact ⟨hc, by dsimp only; rw [p3]; exact hbl, p4, hout, hfil⟩
      · show rb'.frames.getD ((s.frame_out + s.frame_count - 1) % s.frame_count) ⟨0, 0⟩ =
          last.getD ⟨0, 0⟩
        rw [p5]
        exact hg
  | pull s r last len hr ih =>
    obtain ⟨hinv, hg⟩ := ih
    obtain ⟨hc, hbl, hin, hout, hfil⟩ := hinv
    obtain ⟨d1, d2, d3, d4, d5, d6⟩ := drainLoop_spec len s ⟨hc, hbl, hin, hout, hfil⟩
    rw [audioCallback_snd s len hc]
    constructor
    · refine ⟨by rw [d3]; exact hc, by rw [d2, d3]; exact hbl, by rw [d4, d3]; exact hin,
        ?_, ?_⟩
      · rw [d5, d3]
        exact Nat.mod_lt _ hc
      · rw [d6, d5, d3]
        by_cases hm : min (unreadCount s) len = 0
        · rw [if_pos hm, hfil, hm, Nat.add_zero]
          congr 2
          rw [Nat.mod_eq_of_lt hout]
        · rw [if_neg hm]
          congr 1
          rw [show (s.frame_out + min (unreadCount s) len) % s.frame_count +
              s.frame_count - 1 =
              (s.frame_out + min (unreadCount s) len) % s.frame_count +
              (s.frame_count - 1) by omega]
          rw [Nat.mod_add_mod]
          rw [show s.frame_out + min (unreadCount s) len + (s.frame_count - 1) =
              (s.frame_out + min (unreadCount s) len - 1) + s.frame_count by omega]
          rw [Nat.add_mod_right]
    · unfold lastReadAfter SndGhost
      rw [d1, d2, d5, d3]
      by_cases hm : min (unreadCount s) len = 0
      · rw [hm]
        simp only [List.range_zero, List.map_nil, List.getLast?_nil]
        rw [Nat.add_zero]
        show s.buffer.getD ((s.frame_out % s.frame_count + s.frame_count - 1)
          % s.frame_count) ⟨0, 0⟩ = last.getD ⟨0, 0⟩
        rw [Nat.mod_eq_of_lt hout]
        exact hg
      · rw [getLast?_range_map _ _ (by omega)]
        show s.buffer.getD _ ⟨0, 0⟩ = s.buffer.getD _ ⟨0, 0⟩
        congr 1
        rw [show (s.frame_out + min (unreadCount s) len) % s.frame_count +
            s.frame_count - 1 =
            (s.frame_out + min (unreadCount s) len) % s.frame_count +
            (s.frame_count - 1) by omega]
        rw [Nat.mod_add_mod]
        rw [show s.frame_out + min (unreadCount s) len + (s.frame_count - 1) =
            (s.frame_out + min (unreadCount s) len - 1) + s.frame_count by omega]
        rw [Nat.add_mod_right]
        rw [show s.frame_out + (min (unreadCount s) len - 1) =
            s.frame_out + min (unreadCount s) len - 1 by omega]

/-- C7: underrun behavior of the audio callback.  In any reachable session
state, a pull of `n` frames when only `k < n` unread frames are buffered
returns the `k` buffered frames in read order followed by `n - k` copies of
the last frame ever read in this session (silence if none was ever read —
including the padding read this very call performed), and always fully
populates its output: the callback never blocks and never returns short. -/
theorem C7_pull_underrun (s : SndContext) (r : AudioResampler) (last : Option SND_Frame)
    (hreach : SndReach s r last) (n : ℕ) (hk : unreadCount s < n) :
    (SND_audioCallback s n).1 =
      unreadList s ++ List.replicate (n - unreadCount s)
        ((unreadList s).getLast?.getD (last.getD ⟨0, 0⟩)) ∧
    (SND_audioCallback s n).1.length = n := by
  obtain ⟨⟨hc, hbl, hin, hout, hfil⟩, hg⟩ := sndReach_inv hreach
  obtain ⟨d1, d2, d3, d4, d5, d6⟩ := drainLoop_spec n s ⟨hc, hbl, hin, hout, hfil⟩
  have hmin : min (unreadCount s) n = unreadCount s := by omega
  rw [hmin] at d1 d5 d6
  have hul : unreadList s = (List.range (unreadCount s)).map
      (fun i => s.buffer.getD ((s.frame_out + i) % s.frame_count) ⟨0, 0⟩) := rfl
  have hpad : (if 0 ≤ (drainLoop n s).2.frame_filled ∧
        (drainLoop n s).2.frame_filled < (s.frame_count : ℤ) then
        (drainLoop n s).2.buffer.getD (drainLoop n s).2.frame_filled.toNat ⟨0, 0⟩
      else ⟨0, 0⟩) = (unreadList s).getLast?.getD (last.getD ⟨0, 0⟩) := by
    rw [d2, d6]
    by_cases hk0 : unreadCount s = 0
    · rw [if_pos hk0, hfil]
      rw [if_pos ⟨by omega, by exact_mod_cast Nat.mod_lt _ hc⟩]
      rw [Int.toNat_natCast]
      rw [hul, hk0]
      simp only [List.range_zero, List.map_nil, List.getLast?_nil, Option.getD_none]
      exact hg
    · rw [if_neg hk0]
      rw [if_pos ⟨by omega, by exact_mod_cast Nat.mod_lt _ hc⟩]
      rw [Int.toNat_natCast]
      rw [hul, getLast?_range_map _ _ (by omega)]
      show s.buffer.getD _ ⟨0, 0⟩ = s.buffer.getD _ ⟨0, 0⟩
      congr 1
      rw [show s.frame_out + (unreadCount s - 1) =
          s.frame_out + unreadCount s - 1 by omega]
  unfold SND_audioCallback
  rw [if_neg (by omega)]
  dsimp only
  rw [d1, hpad, ← hul]
  constructor
  · congr 2
    rw [hul]
    simp
  · simp only [List.length_append, List.length_replicate]
    rw [hul]
    simp only [List.length_map, List.length_range]
    omega

/-- C7 witness: pulling 3 frames from the freshly resized (empty) buffer. -/
theorem C7_pull_underrun_witness :
    (SND_audioCallback (SND_resizeBuffer 4) 3).1 =
      unreadList (SND_resizeBuffer 4) ++
        List.replicate (3 - unreadCount (SND_resizeBuffer 4))
          ((unreadList (SND_resizeBuffer 4)).getLast?.getD
            ((none : Option SND_Frame).getD ⟨0, 0⟩)) ∧
    (SND_audioCallback (SND_resizeBuffer 4) 3).1.length = 3 :=
  C7_pull_underrun (SND_resizeBuffer 4) (AudioResampler_init 44100 48000) none
    (SndReach.init 4 44100 48000 (by norm_num)) 3 (by decide)
